import Mathlib

/-!
Verification of goupd: self-update decision and atomic replacement.

A shallow embedding of `update.go` (package `goupd`): `SignalVersion`,
`RunAutoUpdateCheck` and `installUpdate`.

* Go strings are Lean strings; tokenising works on their character lists.
* The operating system and the network are explicit: a file-system state maps
  each path to the file it holds, if any; every system call may fail, and the
  outcome of each call is read from an oracle (`OS`, `World`).
* Every run returns, next to its result, the ordered list of the calls it made,
  so that "no further fetch" and "no file-system mutation" are statements about
  that list.
* Concurrent calls are schedules: lists of steps, each tagged with the
  goroutine that makes it, which the mutex `autoUpdateLock` must allow.
-/

namespace Goupd

/-! ## Data model -/

/-- Error values (`error` in Go), carried as their message. -/
abbrev Err := String

/-- File contents. -/
abbrev Bytes := List Nat

/-- A cleaned absolute path, decomposed as `filepath.Dir` and `filepath.Base`
decompose it: the directory and the last element. -/
structure Path where
  dir : String
  name : String
deriving DecidableEq, Repr

/-- Directory part of a path (`filepath.Dir`). -/
def Dir (p : Path) : String := p.dir

/-- Last element of a path (`filepath.Base`). -/
def Base (p : Path) : String := p.name

/-- Path of the entry `name` inside `dir` (`filepath.Join(dir, name)` for an
element `name` without separator). -/
def Join (dir name : String) : Path := ⟨dir, name⟩

/-- A regular file: its bytes and the hidden attribute. -/
structure File where
  data : Bytes
  hidden : Bool
deriving DecidableEq, Repr

/-- File-system state: which file, if any, each path holds. -/
abbrev FS := Path → Option File

/-- The stream handed to `installUpdate` (an `io.Reader`): the bytes it yields
and, when `err` is set, the error it reports in place of end-of-file. -/
structure Reader where
  data : Bytes
  err : Option Err
deriving Repr

/-- Outcome oracle of the operating-system calls made by `installUpdate`.
Each field answers for a call with the given arguments; `none` in an error
field means that the system raises no error of its own for that call. -/
structure OS where
  /-- Result of `os.Executable()`. -/
  executable : Except Err Path
  /-- Result of `filepath.EvalSymlinks`. -/
  evalSymlinks : Path → Except Err Path
  /-- Error of `os.OpenFile(path, O_CREATE|O_WRONLY|O_TRUNC, 0755)`. -/
  openErr : Path → Option Err
  /-- Write failure of `io.Copy` into the file: number of bytes that still
  reach the file, and the error. -/
  writeErr : Path → Option (Nat × Err)
  /-- Error of `os.Rename(src, dst)`. -/
  renameErr : Path → Path → Option Err
  /-- Error of `os.Remove(path)`. -/
  removeErr : Path → Option Err
  /-- Whether `hideFile(path)` manages to set the attribute. -/
  hideOk : Path → Bool

/-! ## System calls -/

/-- Replace the entry of one path. -/
def FS.set (fs : FS) (p : Path) (f : Option File) : FS :=
  fun q => if q = p then f else fs q

/-- The call `os.OpenFile(p, O_CREATE|O_WRONLY|O_TRUNC, 0755)`: on success the
file exists and is empty (an existing file keeps its attributes); on failure
nothing changes. -/
def OpenFile (os : OS) (p : Path) (fs : FS) : FS × Option Err :=
  match os.openErr p with
  | some e => (fs, some e)
  | none =>
    match fs p with
    | some f => (fs.set p (some { f with data := [] }), none)
    | none => (fs.set p (some ⟨[], false⟩), none)

/-- Store `data` as the contents of the open file at `p`. -/
def writeFile (fs : FS) (p : Path) (data : Bytes) : FS :=
  match fs p with
  | some f => fs.set p (some { f with data := data })
  | none => fs.set p (some ⟨data, false⟩)

/-- The call `io.Copy(fp, r)` into the freshly opened file at `p`: bytes are
copied until the reader is exhausted or a write fails; a reader error is
returned after the bytes read before it were written. -/
def ioCopy (os : OS) (p : Path) (r : Reader) (fs : FS) : FS × Option Err :=
  match os.writeErr p with
  | some (n, e) =>
    if n < r.data.length then (writeFile fs p (r.data.take n), some e)
    else (writeFile fs p r.data, r.err)
  | none => (writeFile fs p r.data, r.err)

/-- The call `os.Rename(src, dst)`: atomic; on success `dst` holds the file
that was at `src` (replacing what was there) and `src` is gone; it fails,
changing nothing, when the system says so or when `src` does not exist. -/
def Rename (os : OS) (src dst : Path) (fs : FS) : FS × Option Err :=
  match os.renameErr src dst with
  | some e => (fs, some e)
  | none =>
    match fs src with
    | none => (fs, some "no such file or directory")
    | some f => ((fs.set src none).set dst (some f), none)

/-- The call `os.Remove(p)`. -/
def Remove (os : OS) (p : Path) (fs : FS) : FS × Option Err :=
  match os.removeErr p with
  | some e => (fs, some e)
  | none =>
    match fs p with
    | none => (fs, some "no such file or directory")
    | some _ => (fs.set p none, none)

/-- Modelled from the spec: `hideFile` is not part of the available source; the
spec describes it as "marking it hidden/ignorable". It sets the hidden
attribute of the file at `p` when it succeeds and touches nothing else; the
second component tells whether the attribute was set. -/
def hideFile (os : OS) (p : Path) (fs : FS) : FS × Bool :=
  match fs p with
  | some f =>
    if os.hideOk p then (fs.set p (some { f with hidden := true }), true)
    else (fs, false)
  | none => (fs, false)

/-! ## installUpdate -/

/-- The file-system calls of `installUpdate`, in source order. -/
inductive Step
  | openNew
  | copy
  | renameOld
  | renameNew
  | revert
  | removeOld
  | hideOld
deriving DecidableEq, Repr

/-- One observed call: which call, whether it succeeded, and the file-system
state right after it. -/
structure Obs where
  step : Step
  ok : Bool
  after : FS

/-- A run of `installUpdate`: the returned error (`none` is `nil`), the final
file-system state and every file-system call made, in order. -/
structure InstallRun where
  err : Option Err
  fs : FS
  trace : List Obs

/-- The two path resolutions at the top of `installUpdate`:
`os.Executable()` followed by `filepath.EvalSymlinks`. -/
def resolveExe (os : OS) : Except Err Path :=
  match os.executable with
  | .error e => .error e
  | .ok exe => os.evalSymlinks exe

/-- The sibling `.{name}.new` of the executable. -/
def newPathOf (exe : Path) : Path := Join (Dir exe) ("." ++ Base exe ++ ".new")

/-- The sibling `.{name}.old` of the executable. -/
def oldPathOf (exe : Path) : Path := Join (Dir exe) ("." ++ Base exe ++ ".old")

/-- The function `installUpdate(r io.Reader) error` of `update.go`. Closing the
file (`fp.Close()`, also deferred) changes nothing in the file-system state and
its result is ignored by the source, so it leaves no trace here. -/
def installUpdate (os : OS) (r : Reader) (fs0 : FS) : InstallRun :=
  match os.executable with
  | .error e => ⟨some e, fs0, []⟩
  | .ok exe0 =>
  match os.evalSymlinks exe0 with
  | .error e => ⟨some e, fs0, []⟩
  | .ok exe =>
  -- decompose executable
  let dir := Dir exe
  let name := Base exe
  -- copy data in new file
  let newPath := Join dir ("." ++ name ++ ".new")
  match OpenFile os newPath fs0 with
  | (fs1, some e) => ⟨some e, fs1, [⟨.openNew, false, fs1⟩]⟩
  | (fs1, none) =>
  match ioCopy os newPath r fs1 with
  | (fs2, some e) => ⟨some e, fs2, [⟨.openNew, true, fs1⟩, ⟨.copy, false, fs2⟩]⟩
  | (fs2, none) =>
  -- move files
  let oldPath := Join dir ("." ++ name ++ ".old")
  match Rename os exe oldPath fs2 with
  | (fs3, some e) =>
    ⟨some e, fs3, [⟨.openNew, true, fs1⟩, ⟨.copy, true, fs2⟩, ⟨.renameOld, false, fs3⟩]⟩
  | (fs3, none) =>
  match Rename os newPath exe fs3 with
  | (fs4, some e) =>
    -- rename failed, revert previous rename (hopefully successful)
    let back := Rename os oldPath exe fs4
    ⟨some e, back.1,
      [⟨.openNew, true, fs1⟩, ⟨.copy, true, fs2⟩, ⟨.renameOld, true, fs3⟩,
       ⟨.renameNew, false, fs4⟩, ⟨.revert, back.2.isNone, back.1⟩]⟩
  | (fs4, none) =>
  -- attempt to remove old
  match Remove os oldPath fs4 with
  | (fs5, some _) =>
    -- hide it since remove failed
    let hid := hideFile os oldPath fs5
    ⟨none, hid.1,
      [⟨.openNew, true, fs1⟩, ⟨.copy, true, fs2⟩, ⟨.renameOld, true, fs3⟩,
       ⟨.renameNew, true, fs4⟩, ⟨.removeOld, false, fs5⟩, ⟨.hideOld, hid.2, hid.1⟩]⟩
  | (fs5, none) =>
    ⟨none, fs5,
      [⟨.openNew, true, fs1⟩, ⟨.copy, true, fs2⟩, ⟨.renameOld, true, fs3⟩,
       ⟨.renameNew, true, fs4⟩, ⟨.removeOld, true, fs5⟩]⟩

/-- Whether the run made the call `s` with outcome `ok`. -/
def InstallRun.did (run : InstallRun) (s : Step) (ok : Bool) : Prop :=
  ∃ o ∈ run.trace, o.step = s ∧ o.ok = ok

instance (run : InstallRun) (s : Step) (ok : Bool) : Decidable (run.did s ok) := by
  unfold InstallRun.did
  infer_instance

/-! ## Sample systems -/

/-- A sample executable path. -/
def sampleExe : Path := ⟨"/opt/app", "srv"⟩

/-- A system in which every call succeeds except the removal of the old file
(as on a platform that locks the running image). -/
def sampleOS : OS where
  executable := .ok sampleExe
  evalSymlinks := fun p => .ok p
  openErr := fun _ => none
  writeErr := fun _ => none
  renameErr := fun _ _ => none
  removeErr := fun _ => some "text file busy"
  hideOk := fun _ => true

/-- A directory holding only the executable. -/
def sampleFS : FS := fun p => if p = sampleExe then some ⟨[1, 2], false⟩ else none

/-- The new executable's bytes. -/
def sampleReader : Reader := ⟨[7, 8, 9], none⟩

/-- A system in which only the forward rename (`.{name}.new` onto the
executable) fails. -/
def forwardFailOS : OS :=
  { sampleOS with
    renameErr := fun src _ => if src = newPathOf sampleExe then some "cross-device link" else none }

/-- A system in which every rename onto the executable path fails: the forward
rename and the reverse rename. -/
def stuckOS : OS :=
  { sampleOS with
    renameErr := fun _ dst => if dst = sampleExe then some "permission denied" else none }

/-! ## Go string functions used by the update check -/

/-- White space as Go's `unicode.IsSpace` defines it (used by
`strings.TrimSpace`). -/
def isSpace (c : Char) : Bool :=
  c = '\t' || c = '\n' || c.toNat = 0x0B || c.toNat = 0x0C || c = '\r' || c = ' ' ||
  c.toNat = 0x85 || c.toNat = 0xA0 || c.toNat = 0x1680 ||
  (0x2000 ≤ c.toNat && c.toNat ≤ 0x200A) ||
  c.toNat = 0x2028 || c.toNat = 0x2029 || c.toNat = 0x202F || c.toNat = 0x205F ||
  c.toNat = 0x3000

/-- Characters of `strings.TrimSpace(s)`: leading and trailing white space
removed. -/
def trimSpaceChars (l : List Char) : List Char :=
  ((l.dropWhile isSpace).reverse.dropWhile isSpace).reverse

/-- The function `strings.TrimSpace`. -/
def TrimSpace (s : String) : String := ⟨trimSpaceChars s.data⟩

/-- Cut a text at every character satisfying `p`: the first piece and the
remaining pieces. -/
def splitAux (p : Char → Bool) : List Char → List Char × List (List Char)
  | [] => ([], [])
  | c :: cs =>
    if p c then ([], (splitAux p cs).1 :: (splitAux p cs).2)
    else (c :: (splitAux p cs).1, (splitAux p cs).2)

/-- Cut a text at the first `k` characters satisfying `p`; the last piece is
the unsplit remainder. -/
def splitNAux (p : Char → Bool) : Nat → List Char → List Char × List (List Char)
  | 0, l => (l, [])
  | _ + 1, [] => ([], [])
  | k + 1, c :: cs =>
    if p c then ([], (splitNAux p k cs).1 :: (splitNAux p k cs).2)
    else (c :: (splitNAux p (k + 1) cs).1, (splitNAux p (k + 1) cs).2)

/-- All pieces of a text cut at every character satisfying `p`. -/
def cut (p : Char → Bool) (l : List Char) : List (List Char) :=
  (splitAux p l).1 :: (splitAux p l).2

/-- The function `strings.Split(s, sep)` for a one-character separator. -/
def Split (s : String) (sep : Char) : List String :=
  (cut (fun c => c == sep) s.data).map String.mk

/-- The function `strings.SplitN(s, sep, n)` for a one-character separator and
`n ≥ 0`: at most `n` pieces, the last one being the unsplit remainder. -/
def SplitN (s : String) (sep : Char) (n : Nat) : List String :=
  match n with
  | 0 => []
  | k + 1 =>
    ((splitNAux (fun c => c == sep) k s.data).1 ::
      (splitNAux (fun c => c == sep) k s.data).2).map String.mk

/-- The whitespace-separated tokens of a text, in the words of the spec: the
maximal runs of characters that are not white space (Go's `strings.Fields`). -/
def tokens (s : String) : List String :=
  ((cut isSpace s.data).filter (fun t => !t.isEmpty)).map String.mk

/-! ## SignalVersion and RunAutoUpdateCheck -/

/-- The build-time constants of the package (`GIT_TAG`, `DATE_TAG`,
`PROJECT_NAME`, `HOST`, declared outside `update.go`) and the platform
constants `runtime.GOOS`, `runtime.GOARCH`. -/
structure Config where
  GIT_TAG : String
  DATE_TAG : String
  PROJECT_NAME : String
  HOST : String
  GOOS : String
  GOARCH : String

/-- The function `SignalVersion(git, build string)`: the result tells whether
`go RunAutoUpdateCheck()` is launched. Go compares strings byte by byte; on
UTF-8 text that is the lexicographic order on characters used here. -/
def SignalVersion (cfg : Config) (git build : String) : Bool :=
  if git = "" then false
  else if git = cfg.GIT_TAG then false
  -- compare build
  else if build ≤ cfg.DATE_TAG then false -- we are more recent (or equal)
  -- perform check
  else true

/-- An HTTP response: the body and, when set, the error met when reading it. -/
structure Response where
  body : String
  readErr : Option Err

/-- Everything outside the process: the answer of `http.Get` for each URL, the
`bzip2` decoder applied to a response body, and the operating system. -/
structure World where
  get : String → Except Err Response
  bzip2 : Response → Reader
  os : OS

/-- The three fetches of an update check. -/
inductive Fetch
  | manifest
  | archList
  | payload
deriving DecidableEq, Repr

/-- The calls of `RunAutoUpdateCheck` that reach outside the function. -/
inductive Call
  | lock
  | unlock
  | get (kind : Fetch) (url : String)
  | install
  | restart
deriving DecidableEq, Repr

/-- A run of `RunAutoUpdateCheck`: the returned boolean, the final file-system
state, the calls made in order, and the run of `installUpdate` when it was
reached. -/
structure CheckRun where
  ret : Bool
  fs : FS
  calls : List Call
  install : Option InstallRun

/-- The loop `for _, arch := range archs { if arch == myself { found = true; break } }`. -/
def archFound (myself : String) : List String → Bool
  | [] => false
  | arch :: rest => if arch = myself then true else archFound myself rest

/-- URL of the manifest. -/
def manifestURL (cfg : Config) : String := cfg.HOST ++ cfg.PROJECT_NAME ++ "/LATEST"

/-- URL of the architecture list of a release. -/
def archURL (cfg : Config) (upd : String) : String :=
  cfg.HOST ++ cfg.PROJECT_NAME ++ "/" ++ upd ++ ".arch"

/-- The local platform identifier `runtime.GOOS + "_" + runtime.GOARCH`. -/
def myself (cfg : Config) : String := cfg.GOOS ++ "_" ++ cfg.GOARCH

/-- URL of the compressed executable of a release for the local platform. -/
def payloadURL (cfg : Config) (upd : String) : String :=
  cfg.HOST ++ cfg.PROJECT_NAME ++ "/" ++ upd ++ "/" ++ cfg.PROJECT_NAME ++ "_" ++ myself cfg
    ++ ".bz2"

/-- The body of `RunAutoUpdateCheck`, between taking the lock and the deferred
release. `restartProgram` is outside `update.go`; its call is recorded and the
run goes on to `return true`, as the source's comment has it. -/
def checkBody (cfg : Config) (w : World) (fs : FS) : CheckRun :=
  -- get latest version
  if cfg.PROJECT_NAME = "unconfigured" then ⟨false, fs, [], none⟩ else
  match w.get (manifestURL cfg) with
  | .error _ => ⟨false, fs, [.get .manifest (manifestURL cfg)], none⟩
  | .ok resp =>
  match resp.readErr with
  | some _ => ⟨false, fs, [.get .manifest (manifestURL cfg)], none⟩
  | none =>
  match SplitN (TrimSpace resp.body) ' ' 3 with
  | [_, tag, upd] =>
    if tag = cfg.GIT_TAG then ⟨false, fs, [.get .manifest (manifestURL cfg)], none⟩ else
    -- check if compatible version is available
    match w.get (archURL cfg upd) with
    | .error _ =>
      ⟨false, fs, [.get .manifest (manifestURL cfg), .get .archList (archURL cfg upd)], none⟩
    | .ok resp2 =>
    match resp2.readErr with
    | some _ =>
      ⟨false, fs, [.get .manifest (manifestURL cfg), .get .archList (archURL cfg upd)], none⟩
    | none =>
    if archFound (myself cfg) (Split (TrimSpace resp2.body) ' ') = false then
      ⟨false, fs, [.get .manifest (manifestURL cfg), .get .archList (archURL cfg upd)], none⟩
    else
    -- download actual update
    match w.get (payloadURL cfg upd) with
    | .error _ =>
      ⟨false, fs, [.get .manifest (manifestURL cfg), .get .archList (archURL cfg upd),
        .get .payload (payloadURL cfg upd)], none⟩
    | .ok resp3 =>
    let run := installUpdate w.os (w.bzip2 resp3) fs
    match run.err with
    | some _ =>
      ⟨false, run.fs, [.get .manifest (manifestURL cfg), .get .archList (archURL cfg upd),
        .get .payload (payloadURL cfg upd), .install], some run⟩
    | none =>
      ⟨true, run.fs, [.get .manifest (manifestURL cfg), .get .archList (archURL cfg upd),
        .get .payload (payloadURL cfg upd), .install, .restart], some run⟩
  | _ => ⟨false, fs, [.get .manifest (manifestURL cfg)], none⟩

/-- The function `RunAutoUpdateCheck() bool`: `autoUpdateLock.Lock()`, the
body, and the deferred `autoUpdateLock.Unlock()`. -/
def RunAutoUpdateCheck (cfg : Config) (w : World) (fs : FS) : CheckRun :=
  let run := checkBody cfg w fs
  { run with calls := .lock :: run.calls ++ [.unlock] }

/-! ## Sample worlds -/

/-- Build constants of a sample program, running on `linux_amd64`. -/
def sampleCfg : Config :=
  ⟨"v1", "20230101", "app", "https://dist.example/", "linux", "amd64"⟩

/-- A server answering the manifest request with `manifest`, every
architecture-list request for release `upd` with `archs`, and the payload
request of that release with some archive; everything else is an error. -/
def serve (manifest upd archs : String) : World where
  get := fun url =>
    if url = manifestURL sampleCfg then .ok ⟨manifest, none⟩
    else if url = archURL sampleCfg upd then .ok ⟨archs, none⟩
    else if url = payloadURL sampleCfg upd then .ok ⟨"BZh9", none⟩
    else .error "404"
  bzip2 := fun _ => sampleReader
  os := sampleOS

/-- Manifest with four tokens. -/
def longManifest : String := "20240101 v2 rel-2 extra\n"

/-- Manifest whose first two tokens are separated by two spaces and whose
revision tag is the local one. -/
def wideManifest : String := "20240101  v1 rel-1"

/-- Architecture list with one platform per line. -/
def lineArchs : String := "linux_amd64\ndarwin_amd64\n"

/-! ## Concurrent calls of RunAutoUpdateCheck -/

/-- What one call of `RunAutoUpdateCheck` does, step by step: its outside calls
and, inside `installUpdate`, each file-system call with its outcome. -/
inductive Ev
  | call (c : Call)
  | fsop (s : Step) (ok : Bool)
deriving DecidableEq, Repr

/-- The file-system calls made by `installUpdate` within a run. -/
def CheckRun.fsEvents (run : CheckRun) : List Ev :=
  match run.install with
  | some ir => ir.trace.map (fun o => Ev.fsop o.step o.ok)
  | none => []

/-- The calls of a run with the file-system calls `inner` placed right after
the call of `installUpdate`. -/
def expand (inner : List Ev) : List Call → List Ev
  | [] => []
  | c :: cs =>
    if c = .install then .call c :: (inner ++ expand inner cs) else .call c :: expand inner cs

/-- Every step of a run, in program order. -/
def CheckRun.events (run : CheckRun) : List Ev := expand run.fsEvents run.calls

/-- The mutex `autoUpdateLock` (a `sync.Mutex`): `Lock` goes through only when
the mutex is free and takes it, `Unlock` needs the mutex taken and frees it, any
other step leaves it as it is. The result is the new state, `none` when the
step cannot happen in that state. -/
def mutexStep (locked : Bool) : Ev → Option Bool
  | .call .lock => if locked then none else some true
  | .call .unlock => if locked then some false else none
  | _ => some locked

/-- State of the mutex after a schedule of steps, each tagged with the goroutine
that makes it; `none` when some step cannot happen. -/
def mutexRun (locked : Bool) : List (Nat × Ev) → Option Bool
  | [] => some locked
  | x :: t =>
    match mutexStep locked x.2 with
    | none => none
    | some b => mutexRun b t

/-- A schedule the mutex allows, starting with the mutex free. -/
def admissible (s : List (Nat × Ev)) : Bool := (mutexRun false s).isSome

/-- The steps of goroutine `g` in a schedule, in order. -/
def proj (g : Nat) (s : List (Nat × Ev)) : List Ev :=
  (s.filter (fun x => x.1 = g)).map Prod.snd

/-- All steps of goroutine `g`, one after another. -/
def block (evs : Nat → List Ev) (g : Nat) : List (Nat × Ev) :=
  (evs g).map (fun e => (g, e))

/-- The schedule in which the goroutines of `order` run one after another, each
from its first step to its last. -/
def serial (evs : Nat → List Ev) : List Nat → List (Nat × Ev)
  | [] => []
  | g :: gs => block evs g ++ serial evs gs

/-- A step list that starts with `Lock`, ends with `Unlock` and does not touch
the mutex in between. -/
def Bracketed (l : List Ev) : Prop :=
  ∃ mid, l = .call .lock :: (mid ++ [.call .unlock]) ∧
    Ev.call .lock ∉ mid ∧ Ev.call .unlock ∉ mid

/-- Goroutine `g` has started its steps and not finished them. -/
def inFlight (evs : Nat → List Ev) (g : Nat) (s : List (Nat × Ev)) : Prop :=
  proj g s ≠ [] ∧ proj g s ≠ evs g

/-- Shape of a schedule: complete runs one after another, followed, exactly
when the mutex is taken, by the first steps of one more run. -/
def Shape (evs : Nat → List Ev) (s : List (Nat × Ev)) (locked : Bool) : Prop :=
  ∃ order : List Nat, order.Nodup ∧
    ((locked = false ∧ s = serial evs order) ∨
     (locked = true ∧ ∃ g p, g ∉ order ∧ p ≠ [] ∧ p <+: evs g ∧ p ≠ evs g ∧
        s = serial evs order ++ p.map (fun e => (g, e))))

/-- The steps of goroutine `g` when goroutine `i` calls `RunAutoUpdateCheck`
against world `ws i` with the file system in state `fss i`. -/
def runEvents (cfg : Config) (ws : Nat → World) (fss : Nat → FS) (g : Nat) : List Ev :=
  (RunAutoUpdateCheck cfg (ws g) (fss g)).events

/-- Two goroutines calling `RunAutoUpdateCheck`: goroutine 0 finds release
`rel-2`, goroutine 1 finds the manifest naming the local revision. -/
def sampleWorlds (g : Nat) : World :=
  if g = 0 then serve "20240101 v2 rel-2" "rel-2" "linux_amd64"
  else serve "20240101 v1 rel-1\n" "rel-1" "linux_amd64"

/-- Steps of the run of goroutine 1: up to date after the manifest fetch. -/
def sampleQuiet : List Ev :=
  [.call .lock, .call (.get .manifest (manifestURL sampleCfg)), .call .unlock]

/-- Steps of the run of goroutine 0: three fetches and the replacement. -/
def sampleBusy : List Ev :=
  [.call .lock, .call (.get .manifest (manifestURL sampleCfg)),
   .call (.get .archList (archURL sampleCfg "rel-2")),
   .call (.get .payload (payloadURL sampleCfg "rel-2")), .call .install,
   .fsop .openNew true, .fsop .copy true, .fsop .renameOld true, .fsop .renameNew true,
   .fsop .removeOld false, .fsop .hideOld true, .call .restart, .call .unlock]

/-- Goroutine 1 runs first, goroutine 0 after it. -/
def sampleSchedule : List (Nat × Ev) :=
  sampleQuiet.map (fun e => (1, e)) ++ sampleBusy.map (fun e => (0, e))

/-- Goroutine 1 takes the lock while goroutine 0 is fetching. -/
def sampleInterleaved : List (Nat × Ev) :=
  (sampleBusy.take 2).map (fun e => (0, e)) ++ sampleQuiet.map (fun e => (1, e)) ++
    (sampleBusy.drop 2).map (fun e => (0, e))

/-! ## Facts about the system calls -/

theorem exists_err {x : Option Err} (h : x ≠ none) : ∃ e, x = some e := by
  cases x with
  | none => exact absurd rfl h
  | some e => exact ⟨e, rfl⟩

theorem FS.set_same (fs : FS) (p : Path) (f : Option File) : fs.set p f p = f := by
  simp [FS.set]

theorem FS.set_other (fs : FS) (p q : Path) (f : Option File) (h : q ≠ p) :
    fs.set p f q = fs q := by
  simp [FS.set, h]

theorem newPathOf_ne (exe : Path) : newPathOf exe ≠ exe := by
  intro h
  have h2 : ("." ++ exe.name ++ ".new").length = exe.name.length := by
    have := congrArg Path.name h
    simp only [newPathOf, Join, Dir, Base] at this
    rw [this]
  simp [String.length_append] at h2
  have h3 : (".").length = 1 := by decide
  have h4 : (".new").length = 4 := by decide
  omega

theorem oldPathOf_ne (exe : Path) : oldPathOf exe ≠ exe := by
  intro h
  have h2 : ("." ++ exe.name ++ ".old").length = exe.name.length := by
    have := congrArg Path.name h
    simp only [oldPathOf, Join, Dir, Base] at this
    rw [this]
  simp [String.length_append] at h2
  have h3 : (".").length = 1 := by decide
  have h4 : (".old").length = 4 := by decide
  omega

theorem newPathOf_ne_oldPathOf (exe : Path) : newPathOf exe ≠ oldPathOf exe := by
  intro h
  have h1 := congrArg Path.name h
  simp only [newPathOf, oldPathOf, Join, Dir, Base] at h1
  have h2 := congrArg String.data h1
  simp only [String.data_append, List.append_cancel_left_eq] at h2
  exact absurd h2 (by decide)

theorem OpenFile_other (os : OS) (p q : Path) (fs : FS) (h : q ≠ p) :
    (OpenFile os p fs).1 q = fs q := by
  unfold OpenFile
  cases os.openErr p <;> cases fs p <;> simp [FS.set, h]

theorem OpenFile_fail (os : OS) (p : Path) (fs : FS) (e : Err)
    (h : (OpenFile os p fs).2 = some e) : (OpenFile os p fs).1 = fs := by
  unfold OpenFile at h ⊢
  cases h1 : os.openErr p <;> cases h2 : fs p <;> simp_all

theorem writeFile_other (p q : Path) (fs : FS) (d : Bytes) (h : q ≠ p) :
    writeFile fs p d q = fs q := by
  unfold writeFile
  cases fs p <;> simp [FS.set, h]

theorem writeFile_same (p : Path) (fs : FS) (d : Bytes) :
    (writeFile fs p d p).map File.data = some d := by
  unfold writeFile
  cases fs p <;> simp [FS.set]

theorem ioCopy_other (os : OS) (p q : Path) (r : Reader) (fs : FS) (h : q ≠ p) :
    (ioCopy os p r fs).1 q = fs q := by
  unfold ioCopy
  rcases os.writeErr p with _ | ⟨n, e⟩
  · simp [writeFile_other _ _ _ _ h]
  · by_cases hn : n < r.data.length <;> simp [hn, writeFile_other _ _ _ _ h]

theorem ioCopy_ok (os : OS) (p : Path) (r : Reader) (fs : FS)
    (h : (ioCopy os p r fs).2 = none) :
    ((ioCopy os p r fs).1 p).map File.data = some r.data := by
  unfold ioCopy at h ⊢
  rcases h1 : os.writeErr p with _ | ⟨n, e⟩
  · simp only [writeFile_same]
  · by_cases hn : n < r.data.length
    · simp [h1, hn] at h
    · simp only [hn, if_false, writeFile_same]

theorem Rename_fail (os : OS) (src dst : Path) (fs : FS) (e : Err)
    (h : (Rename os src dst fs).2 = some e) : (Rename os src dst fs).1 = fs := by
  unfold Rename at h ⊢
  cases h1 : os.renameErr src dst <;> cases h2 : fs src <;> simp_all

theorem Rename_ok (os : OS) (src dst : Path) (fs : FS)
    (h : (Rename os src dst fs).2 = none) :
    ∃ f, fs src = some f ∧ (Rename os src dst fs).1 = (fs.set src none).set dst (some f) := by
  unfold Rename at h ⊢
  cases h1 : os.renameErr src dst <;> cases h2 : fs src <;> simp_all

theorem Remove_fail (os : OS) (p : Path) (fs : FS) (e : Err)
    (h : (Remove os p fs).2 = some e) : (Remove os p fs).1 = fs := by
  unfold Remove at h ⊢
  cases h1 : os.removeErr p <;> cases h2 : fs p <;> simp_all

theorem Remove_ok (os : OS) (p : Path) (fs : FS)
    (h : (Remove os p fs).2 = none) : (Remove os p fs).1 = fs.set p none := by
  unfold Remove at h ⊢
  cases h1 : os.removeErr p <;> cases h2 : fs p <;> simp_all

theorem hideFile_data (os : OS) (p q : Path) (fs : FS) :
    ((hideFile os p fs).1 q).map File.data = (fs q).map File.data := by
  unfold hideFile
  cases hf : fs p
  · simp
  · by_cases hk : os.hideOk p = true
    · by_cases hq : q = p
      · subst hq; simp [hk, FS.set, hf]
      · simp [hk, FS.set, hq]
    · simp [hk]

/-- The run of `installUpdate` once the executable path is resolved, written
with the outcome of each call as a projection of that call. -/
theorem installUpdate_eq (os : OS) (r : Reader) (fs : FS) (exe : Path)
    (hexe : resolveExe os = .ok exe) :
    installUpdate os r fs =
      if (OpenFile os (newPathOf exe) fs).2 ≠ none then
        ⟨(OpenFile os (newPathOf exe) fs).2, (OpenFile os (newPathOf exe) fs).1,
          [⟨.openNew, false, (OpenFile os (newPathOf exe) fs).1⟩]⟩
      else if (ioCopy os (newPathOf exe) r (OpenFile os (newPathOf exe) fs).1).2 ≠ none then
        ⟨(ioCopy os (newPathOf exe) r (OpenFile os (newPathOf exe) fs).1).2,
          (ioCopy os (newPathOf exe) r (OpenFile os (newPathOf exe) fs).1).1,
          [⟨.openNew, true, (OpenFile os (newPathOf exe) fs).1⟩,
           ⟨.copy, false, (ioCopy os (newPathOf exe) r (OpenFile os (newPathOf exe) fs).1).1⟩]⟩
      else
        let fs1 := (OpenFile os (newPathOf exe) fs).1
        let fs2 := (ioCopy os (newPathOf exe) r fs1).1
        let r3 := Rename os exe (oldPathOf exe) fs2
        if r3.2 ≠ none then
          ⟨r3.2, r3.1, [⟨.openNew, true, fs1⟩, ⟨.copy, true, fs2⟩, ⟨.renameOld, false, r3.1⟩]⟩
        else
          let r4 := Rename os (newPathOf exe) exe r3.1
          if r4.2 ≠ none then
            let back := Rename os (oldPathOf exe) exe r4.1
            ⟨r4.2, back.1,
              [⟨.openNew, true, fs1⟩, ⟨.copy, true, fs2⟩, ⟨.renameOld, true, r3.1⟩,
               ⟨.renameNew, false, r4.1⟩, ⟨.revert, back.2.isNone, back.1⟩]⟩
          else
            let r5 := Remove os (oldPathOf exe) r4.1
            if r5.2 ≠ none then
              let hid := hideFile os (oldPathOf exe) r5.1
              ⟨none, hid.1,
                [⟨.openNew, true, fs1⟩, ⟨.copy, true, fs2⟩, ⟨.renameOld, true, r3.1⟩,
                 ⟨.renameNew, true, r4.1⟩, ⟨.removeOld, false, r5.1⟩, ⟨.hideOld, hid.2, hid.1⟩]⟩
            else
              ⟨none, r5.1,
                [⟨.openNew, true, fs1⟩, ⟨.copy, true, fs2⟩, ⟨.renameOld, true, r3.1⟩,
                 ⟨.renameNew, true, r4.1⟩, ⟨.removeOld, true, r5.1⟩]⟩ := by
  unfold resolveExe at hexe
  cases h0 : os.executable with
  | error e => simp [h0] at hexe
  | ok exe0 =>
  simp only [h0] at hexe
  simp only [installUpdate, h0, hexe, newPathOf, oldPathOf]
  rcases hO : OpenFile os (Join (Dir exe) ("." ++ Base exe ++ ".new")) fs with ⟨fs1, _ | e⟩ <;>
    simp only [ne_eq, not_true_eq_false, reduceCtorEq, not_false_eq_true, if_true, if_false]
  rcases hC : ioCopy os (Join (Dir exe) ("." ++ Base exe ++ ".new")) r fs1 with ⟨fs2, _ | e⟩ <;>
    simp only [ne_eq, not_true_eq_false, reduceCtorEq, not_false_eq_true, if_true, if_false]
  rcases hR1 : Rename os exe (Join (Dir exe) ("." ++ Base exe ++ ".old")) fs2 with ⟨fs3, _ | e⟩ <;>
    simp only [ne_eq, not_true_eq_false, reduceCtorEq, not_false_eq_true, if_true, if_false]
  rcases hR2 : Rename os (Join (Dir exe) ("." ++ Base exe ++ ".new")) exe fs3 with ⟨fs4, _ | e⟩ <;>
    simp only [ne_eq, not_true_eq_false, reduceCtorEq, not_false_eq_true, if_true, if_false]
  rcases hRm : Remove os (Join (Dir exe) ("." ++ Base exe ++ ".old")) fs4 with ⟨fs5, _ | e⟩ <;>
    simp only [ne_eq, not_true_eq_false, reduceCtorEq, not_false_eq_true, if_true, if_false]

/-! ## The replacement protocol -/

/-- C1: when the write of the stream to `.{name}.new` and both renames
succeed, `installUpdate` returns nil, the executable path holds exactly the
bytes of the stream and nothing is left at `.{name}.new`, whatever the outcome
of the final removal and of `hideFile`; `.{name}.old` is absent when the
removal succeeded. -/
theorem installUpdate_success (os : OS) (r : Reader) (fs : FS) (exe : Path)
    (hexe : resolveExe os = .ok exe)
    (hopen : (installUpdate os r fs).did .openNew true)
    (hcopy : (installUpdate os r fs).did .copy true)
    (hold : (installUpdate os r fs).did .renameOld true)
    (hnew : (installUpdate os r fs).did .renameNew true) :
    (installUpdate os r fs).err = none ∧
    ((installUpdate os r fs).fs exe).map File.data = some r.data ∧
    (installUpdate os r fs).fs (newPathOf exe) = none ∧
    ((installUpdate os r fs).did .removeOld true →
      (installUpdate os r fs).fs (oldPathOf exe) = none) := by
  unfold resolveExe at hexe
  cases h0 : os.executable with
  | error e => simp [h0] at hexe
  | ok exe0 =>
  simp only [h0] at hexe
  have hne := newPathOf_ne exe
  have hoe := oldPathOf_ne exe
  have hno := newPathOf_ne_oldPathOf exe
  simp only [newPathOf, oldPathOf] at hne hoe hno
  simp only [installUpdate, h0, hexe, InstallRun.did, newPathOf, oldPathOf] at hopen hcopy hold hnew ⊢
  rcases hO : OpenFile os (Join (Dir exe) ("." ++ Base exe ++ ".new")) fs with ⟨fs1, _ | e⟩
  swap
  · simp [hO] at hopen
  simp only [hO] at hopen hcopy hold hnew ⊢
  rcases hC : ioCopy os (Join (Dir exe) ("." ++ Base exe ++ ".new")) r fs1 with ⟨fs2, _ | e⟩
  swap
  · simp [hC] at hcopy
  simp only [hC] at hopen hcopy hold hnew ⊢
  have hdata : (fs2 (Join (Dir exe) ("." ++ Base exe ++ ".new"))).map File.data = some r.data := by
    have := ioCopy_ok os (Join (Dir exe) ("." ++ Base exe ++ ".new")) r fs1 (by rw [hC])
    rwa [hC] at this
  rcases hR1 : Rename os exe (Join (Dir exe) ("." ++ Base exe ++ ".old")) fs2 with ⟨fs3, _ | e⟩
  swap
  · simp [hR1] at hold
  simp only [hR1] at hopen hcopy hold hnew ⊢
  obtain ⟨f1, hf1, h3⟩ := Rename_ok os exe (Join (Dir exe) ("." ++ Base exe ++ ".old")) fs2
    (by rw [hR1])
  rw [hR1] at h3
  simp only at h3
  rcases hR2 : Rename os (Join (Dir exe) ("." ++ Base exe ++ ".new")) exe fs3 with ⟨fs4, _ | e⟩
  swap
  · simp [hR2] at hnew
  simp only [hR2] at hopen hcopy hold hnew ⊢
  obtain ⟨f2, hf2, h4⟩ := Rename_ok os (Join (Dir exe) ("." ++ Base exe ++ ".new")) exe fs3
    (by rw [hR2])
  rw [hR2] at h4
  simp only at h4
  have hf2data : f2.data = r.data := by
    have : fs3 (Join (Dir exe) ("." ++ Base exe ++ ".new")) =
        fs2 (Join (Dir exe) ("." ++ Base exe ++ ".new")) := by
      rw [h3]; simp [FS.set, hne, hno]
    rw [this] at hf2
    rw [hf2] at hdata
    simpa using hdata
  have h4exe : fs4 exe = some f2 := by rw [h4]; simp [FS.set]
  have h4new : fs4 (Join (Dir exe) ("." ++ Base exe ++ ".new")) = none := by
    rw [h4]; simp [FS.set, hne]
  rcases hRm : Remove os (Join (Dir exe) ("." ++ Base exe ++ ".old")) fs4 with ⟨fs5, _ | e⟩ <;>
    simp only [hRm]
  · have h5 := Remove_ok os (Join (Dir exe) ("." ++ Base exe ++ ".old")) fs4 (by rw [hRm])
    rw [hRm] at h5
    simp only at h5
    subst h5
    refine ⟨trivial, ?_, ?_, ?_⟩
    · simp [FS.set, Ne.symm hoe, h4exe, hf2data]
    · simp [FS.set, hno, h4new]
    · intro _; simp [FS.set]
  · have h5 := Remove_fail os (Join (Dir exe) ("." ++ Base exe ++ ".old")) fs4 e (by rw [hRm])
    rw [hRm] at h5
    simp only at h5
    subst h5
    refine ⟨trivial, ?_, ?_, ?_⟩
    · rw [hideFile_data, h4exe]; simp [hf2data]
    · have := hideFile_data os (Join (Dir exe) ("." ++ Base exe ++ ".old"))
        (Join (Dir exe) ("." ++ Base exe ++ ".new")) fs5
      rw [h4new] at this
      simpa using this
    · intro h; simp at h

theorem hideFile_isSome (os : OS) (p q : Path) (fs : FS) :
    ((hideFile os p fs).1 q).isSome = (fs q).isSome := by
  have h := congrArg Option.isSome (hideFile_data os p q fs)
  simpa using h

theorem Remove_other (os : OS) (p q : Path) (fs : FS) (h : q ≠ p) :
    (Remove os p fs).1 q = fs q := by
  unfold Remove
  cases os.removeErr p <;> cases fs p <;> simp [FS.set, h]

/-- C2 (amended): started with a file at the executable path, every observable
point of a run of `installUpdate` either has a file at that path or has the
original file at `.{name}.old`, the latter only right after the successful
first rename, a failed forward rename or a failed reverse rename; at return the
path holds a file unless the reverse rename failed. -/
theorem installUpdate_original_kept (os : OS) (r : Reader) (fs : FS) (exe : Path) (f0 : File)
    (hexe : resolveExe os = .ok exe) (hf0 : fs exe = some f0) :
    (∀ o ∈ (installUpdate os r fs).trace,
      (o.after exe).isSome = true ∨
      (o.after (oldPathOf exe) = some f0 ∧
        ((o.step = .renameOld ∧ o.ok = true) ∨ (o.step = .renameNew ∧ o.ok = false) ∨
          (o.step = .revert ∧ o.ok = false)))) ∧
    (¬ (installUpdate os r fs).did .revert false →
      ((installUpdate os r fs).fs exe).isSome = true) := by
  have hne := newPathOf_ne exe
  have hoe := oldPathOf_ne exe
  have hno := newPathOf_ne_oldPathOf exe
  have h1 : (OpenFile os (newPathOf exe) fs).1 exe = some f0 := by
    rw [OpenFile_other _ _ _ _ (Ne.symm hne), hf0]
  have h2 : (ioCopy os (newPathOf exe) r (OpenFile os (newPathOf exe) fs).1).1 exe = some f0 := by
    rw [ioCopy_other _ _ _ _ _ (Ne.symm hne), h1]
  rw [installUpdate_eq os r fs exe hexe]
  dsimp only
  split_ifs with c1 c2 c3 c4 c5
  · simp [InstallRun.did, h1]
  · simp [InstallRun.did, h1, h2]
  · have h3 := Rename_fail os exe (oldPathOf exe) _ _ (exists_err c3).choose_spec
    simp [InstallRun.did, h1, h2, h3]
  · -- forward rename failed
    obtain ⟨f, hf, h3⟩ := Rename_ok os exe (oldPathOf exe) _ (not_not.mp c3)
    rw [h2] at hf
    cases hf
    have h3e : (Rename os exe (oldPathOf exe)
        (ioCopy os (newPathOf exe) r (OpenFile os (newPathOf exe) fs).1).1).1 exe = none := by
      rw [h3]; simp [FS.set, Ne.symm hoe]
    have h3o : (Rename os exe (oldPathOf exe)
        (ioCopy os (newPathOf exe) r (OpenFile os (newPathOf exe) fs).1).1).1 (oldPathOf exe)
          = some f0 := by
      rw [h3]; simp [FS.set]
    have h4 := Rename_fail os (newPathOf exe) exe _ _ (exists_err c4).choose_spec
    simp only [InstallRun.did, List.mem_cons, List.mem_singleton, List.not_mem_nil, or_false,
      forall_eq_or_imp, forall_eq, h1, h2, h3o, h4, Option.isSome_some, true_or, true_and,
      and_true, reduceCtorEq, false_and, or_true, exists_eq_or_imp, exists_eq_left,
      Bool.true_eq_false, and_self, false_or, and_false, not_false_eq_true]
    cases hb : (Rename os (oldPathOf exe) exe (Rename os exe (oldPathOf exe)
        (ioCopy os (newPathOf exe) r (OpenFile os (newPathOf exe) fs).1).1).1).2 with
    | none =>
      obtain ⟨g, hg, hback⟩ := Rename_ok os (oldPathOf exe) exe _ hb
      simp [hback, FS.set]
    | some e =>
      have hback := Rename_fail os (oldPathOf exe) exe _ _ hb
      simp [hback, h3o]
  · -- removal of the old file failed
    obtain ⟨f, hf, h3⟩ := Rename_ok os exe (oldPathOf exe) _ (not_not.mp c3)
    rw [h2] at hf
    cases hf
    have h3o : (Rename os exe (oldPathOf exe)
        (ioCopy os (newPathOf exe) r (OpenFile os (newPathOf exe) fs).1).1).1 (oldPathOf exe)
          = some f0 := by
      rw [h3]; simp [FS.set]
    obtain ⟨f2, hf2, h4⟩ := Rename_ok os (newPathOf exe) exe _ (not_not.mp c4)
    have h4e : ((Rename os (newPathOf exe) exe (Rename os exe (oldPathOf exe)
        (ioCopy os (newPathOf exe) r (OpenFile os (newPathOf exe) fs).1).1).1).1 exe).isSome
          = true := by
      rw [h4]; simp [FS.set]
    simp [InstallRun.did, h1, h2, h3o, h4e, hideFile_isSome, Remove_other _ _ _ _ (Ne.symm hoe)]
  · obtain ⟨f, hf, h3⟩ := Rename_ok os exe (oldPathOf exe) _ (not_not.mp c3)
    rw [h2] at hf
    cases hf
    have h3o : (Rename os exe (oldPathOf exe)
        (ioCopy os (newPathOf exe) r (OpenFile os (newPathOf exe) fs).1).1).1 (oldPathOf exe)
          = some f0 := by
      rw [h3]; simp [FS.set]
    obtain ⟨f2, hf2, h4⟩ := Rename_ok os (newPathOf exe) exe _ (not_not.mp c4)
    have h4e : ((Rename os (newPathOf exe) exe (Rename os exe (oldPathOf exe)
        (ioCopy os (newPathOf exe) r (OpenFile os (newPathOf exe) fs).1).1).1).1 exe).isSome
          = true := by
      rw [h4]; simp [FS.set]
    simp [InstallRun.did, h1, h2, h3o, h4e, Remove_other _ _ _ _ (Ne.symm hoe)]

theorem installUpdate_unresolved (os : OS) (r : Reader) (fs : FS) (e : Err)
    (h : resolveExe os = .error e) :
    (installUpdate os r fs).fs = fs ∧ (installUpdate os r fs).trace = [] ∧
    (installUpdate os r fs).err = some e := by
  unfold resolveExe at h
  unfold installUpdate
  cases h0 : os.executable with
  | error e0 =>
    simp only [h0] at h
    cases h
    simp
  | ok exe0 =>
    simp only [h0] at h
    simp [h]

/-- After an error return without a failed reverse rename, the executable path
holds the file it held before the call. -/
theorem installUpdate_kept_of_error (os : OS) (r : Reader) (fs : FS)
    (herr : (installUpdate os r fs).err ≠ none)
    (hrev : ¬ (installUpdate os r fs).did .revert false) :
    (∀ exe, resolveExe os = .ok exe → (installUpdate os r fs).fs exe = fs exe) ∧
    (∀ e, resolveExe os = .error e → (installUpdate os r fs).fs = fs) := by
  refine ⟨?_, fun e he => (installUpdate_unresolved os r fs e he).1⟩
  intro exe hexe
  have hne := newPathOf_ne exe
  have hoe := oldPathOf_ne exe
  have h1 : (OpenFile os (newPathOf exe) fs).1 exe = fs exe :=
    OpenFile_other _ _ _ _ (Ne.symm hne)
  have h2 : (ioCopy os (newPathOf exe) r (OpenFile os (newPathOf exe) fs).1).1 exe = fs exe := by
    rw [ioCopy_other _ _ _ _ _ (Ne.symm hne), h1]
  rw [installUpdate_eq os r fs exe hexe] at herr hrev ⊢
  dsimp only at herr hrev ⊢
  split_ifs at herr hrev ⊢ with c1 c2 c3 c4 c5
  · exact h1
  · exact h2
  · have h3 := Rename_fail os exe (oldPathOf exe) _ _ (exists_err c3).choose_spec
    simp only [h3, h2]
  · obtain ⟨f, hf, h3⟩ := Rename_ok os exe (oldPathOf exe) _ (not_not.mp c3)
    rw [h2] at hf
    have h3o : (Rename os exe (oldPathOf exe)
        (ioCopy os (newPathOf exe) r (OpenFile os (newPathOf exe) fs).1).1).1 (oldPathOf exe)
          = some f := by
      rw [h3]; simp [FS.set]
    have h4 := Rename_fail os (newPathOf exe) exe _ _ (exists_err c4).choose_spec
    simp only [h4] at hrev ⊢
    cases hb : (Rename os (oldPathOf exe) exe (Rename os exe (oldPathOf exe)
        (ioCopy os (newPathOf exe) r (OpenFile os (newPathOf exe) fs).1).1).1).2 with
    | none =>
      obtain ⟨g, hg, hback⟩ := Rename_ok os (oldPathOf exe) exe _ hb
      rw [h3o] at hg
      cases hg
      rw [hback, hf]
      simp [FS.set]
    | some e =>
      exfalso
      apply hrev
      simp [InstallRun.did, hb]
  · exact absurd rfl herr
  · exact absurd rfl herr

/-- An error is returned exactly when the path resolution or one of the calls
up to the forward rename failed. -/
theorem installUpdate_err_iff (os : OS) (r : Reader) (fs : FS) :
    (installUpdate os r fs).err ≠ none ↔
      ((∃ e, resolveExe os = .error e) ∨
        (installUpdate os r fs).did .openNew false ∨
        (installUpdate os r fs).did .copy false ∨
        (installUpdate os r fs).did .renameOld false ∨
        (installUpdate os r fs).did .renameNew false) := by
  cases hres : resolveExe os with
  | error e =>
    obtain ⟨_, _, h3⟩ := installUpdate_unresolved os r fs e hres
    simp [h3]
  | ok exe =>
    rw [installUpdate_eq os r fs exe hres]
    dsimp only
    split_ifs with c1 c2 c3 c4 c5 <;> simp [InstallRun.did, *]

/-- A run has at most one reverse rename: one that succeeded did not fail. -/
theorem installUpdate_revert_once (os : OS) (r : Reader) (fs : FS)
    (h : (installUpdate os r fs).did .revert true) :
    ¬ (installUpdate os r fs).did .revert false := by
  cases hres : resolveExe os with
  | error e =>
    obtain ⟨_, h2, _⟩ := installUpdate_unresolved os r fs e hres
    simp [InstallRun.did, h2]
  | ok exe =>
    rw [installUpdate_eq os r fs exe hres] at h ⊢
    dsimp only at h ⊢
    split_ifs at h ⊢ with c1 c2 c3 c4 c5 <;> simp [InstallRun.did] at h ⊢
    simp [h]

/-- C3: `installUpdate` returns an error exactly when the path resolution, the
opening or writing of `.{name}.new`, the first rename or the forward rename
failed. When it returns an error and the reverse rename, if it was attempted,
succeeded, the executable path holds after the return the very file it held
before the call (and when the path could not even be resolved, nothing was
touched). In particular a failed forward rename followed by a successful
reverse rename returns an error with the original file back in place. -/
theorem installUpdate_error_keeps_original (os : OS) (r : Reader) (fs : FS) :
    ((installUpdate os r fs).err ≠ none ↔
      ((∃ e, resolveExe os = .error e) ∨
        (installUpdate os r fs).did .openNew false ∨
        (installUpdate os r fs).did .copy false ∨
        (installUpdate os r fs).did .renameOld false ∨
        (installUpdate os r fs).did .renameNew false)) ∧
    ((installUpdate os r fs).err ≠ none →
      ¬ (installUpdate os r fs).did .revert false →
        (∀ exe, resolveExe os = .ok exe → (installUpdate os r fs).fs exe = fs exe) ∧
        (∀ e, resolveExe os = .error e → (installUpdate os r fs).fs = fs)) ∧
    (∀ exe, resolveExe os = .ok exe →
      (installUpdate os r fs).did .renameNew false →
      (installUpdate os r fs).did .revert true →
        (installUpdate os r fs).err ≠ none ∧ (installUpdate os r fs).fs exe = fs exe) := by
  refine ⟨installUpdate_err_iff os r fs, installUpdate_kept_of_error os r fs, ?_⟩
  intro exe hexe hnew hrev
  have herr : (installUpdate os r fs).err ≠ none :=
    (installUpdate_err_iff os r fs).mpr (Or.inr (Or.inr (Or.inr (Or.inr hnew))))
  exact ⟨herr, (installUpdate_kept_of_error os r fs herr
    (installUpdate_revert_once os r fs hrev)).1 exe hexe⟩

/-! ## Concrete runs of the replacement protocol -/

theorem installUpdate_success_witness :
    (installUpdate sampleOS sampleReader sampleFS).err = none ∧
    ((installUpdate sampleOS sampleReader sampleFS).fs sampleExe).map File.data
      = some sampleReader.data ∧
    (installUpdate sampleOS sampleReader sampleFS).fs (newPathOf sampleExe) = none ∧
    ((installUpdate sampleOS sampleReader sampleFS).did .removeOld true →
      (installUpdate sampleOS sampleReader sampleFS).fs (oldPathOf sampleExe) = none) :=
  installUpdate_success sampleOS sampleReader sampleFS sampleExe rfl
    (by decide) (by decide) (by decide) (by decide)

/-- C2 (as stated) fails: in a run that succeeds, the state right after the
first rename has no file at the executable path although one was there at the
start; and in a run where the forward and the reverse rename both fail, no file
is at the executable path at return. -/
theorem installUpdate_exe_absent_midway :
    sampleFS sampleExe ≠ none ∧
    (installUpdate sampleOS sampleReader sampleFS).err = none ∧
    (∃ o ∈ (installUpdate sampleOS sampleReader sampleFS).trace,
      o.step = .renameOld ∧ o.after sampleExe = none) ∧
    (installUpdate stuckOS sampleReader sampleFS).err ≠ none ∧
    (installUpdate stuckOS sampleReader sampleFS).fs sampleExe = none := by
  decide

theorem installUpdate_original_kept_witness :
    (∀ o ∈ (installUpdate stuckOS sampleReader sampleFS).trace,
      (o.after sampleExe).isSome = true ∨
      (o.after (oldPathOf sampleExe) = some ⟨[1, 2], false⟩ ∧
        ((o.step = .renameOld ∧ o.ok = true) ∨ (o.step = .renameNew ∧ o.ok = false) ∨
          (o.step = .revert ∧ o.ok = false)))) ∧
    (¬ (installUpdate stuckOS sampleReader sampleFS).did .revert false →
      ((installUpdate stuckOS sampleReader sampleFS).fs sampleExe).isSome = true) :=
  installUpdate_original_kept stuckOS sampleReader sampleFS sampleExe ⟨[1, 2], false⟩ rfl
    (by decide)

theorem installUpdate_error_keeps_original_witness :
    (installUpdate forwardFailOS sampleReader sampleFS).did .renameNew false ∧
    (installUpdate forwardFailOS sampleReader sampleFS).did .revert true ∧
    (installUpdate forwardFailOS sampleReader sampleFS).err ≠ none ∧
    (installUpdate forwardFailOS sampleReader sampleFS).fs sampleExe = sampleFS sampleExe ∧
    (installUpdate stuckOS sampleReader sampleFS).err ≠ none :=
  ⟨by decide, by decide,
    ((installUpdate_error_keeps_original forwardFailOS sampleReader sampleFS).2.2
      sampleExe rfl (by decide) (by decide)).1,
    ((installUpdate_error_keeps_original forwardFailOS sampleReader sampleFS).2.1
      (by decide) (by decide)).1 sampleExe rfl,
    (installUpdate_error_keeps_original stuckOS sampleReader sampleFS).1.mpr
      (Or.inr (Or.inr (Or.inr (Or.inr (by decide)))))⟩

/-! ## SignalVersion -/

/-- C4: `SignalVersion(git, build)` launches the update check exactly when
`git` is non-empty, differs from `GIT_TAG`, and `build` is strictly greater
than `DATE_TAG` in the lexicographic order of strings; an empty tag never
launches it, nor does a `build` that is `≤ DATE_TAG`. -/
theorem SignalVersion_iff (cfg : Config) (git build : String) :
    (SignalVersion cfg git build = true ↔
      git ≠ "" ∧ git ≠ cfg.GIT_TAG ∧ cfg.DATE_TAG < build) ∧
    SignalVersion cfg "" build = false ∧
    (build ≤ cfg.DATE_TAG → SignalVersion cfg git build = false) := by
  unfold SignalVersion
  refine ⟨?_, by simp, ?_⟩
  · by_cases h1 : git = ""
    · simp [h1]
    · by_cases h2 : git = cfg.GIT_TAG
      · simp [h1, h2]
      · by_cases h3 : build ≤ cfg.DATE_TAG
        · simp [h1, h2, h3, not_lt.mpr h3]
        · simp [h1, h2, h3, not_le.mp h3]
  · intro h
    simp [h]

theorem SignalVersion_iff_witness :
    "20230101" ≤ sampleCfg.DATE_TAG ∧
    SignalVersion sampleCfg "v2" "20230101" = false ∧
    SignalVersion sampleCfg "v2" "20230102" = true :=
  ⟨String.le_iff_toList_le.mpr (by decide),
    (SignalVersion_iff sampleCfg "v2" "20230101").2.2 (String.le_iff_toList_le.mpr (by decide)),
    (SignalVersion_iff sampleCfg "v2" "20230102").1.mpr
      ⟨by decide, by decide, String.lt_iff_toList_lt.mpr (by decide)⟩⟩

/-! ## Splitting -/

theorem splitNAux_length (p : Char → Bool) (k : Nat) (l : List Char) :
    (splitNAux p k l).2.length = min k (l.countP p) := by
  induction l generalizing k with
  | nil => cases k <;> simp [splitNAux]
  | cons c cs ih =>
    cases k with
    | zero => simp [splitNAux]
    | succ k =>
      by_cases hc : p c = true
      · simp only [splitNAux, hc, if_true, List.length_cons, ih k, List.countP_cons_of_pos]
        omega
      · simp [splitNAux, hc, ih (k + 1)]

theorem SplitN_length (s : String) (sep : Char) (k : Nat) :
    (SplitN s sep (k + 1)).length = min k (s.data.count sep) + 1 := by
  simp [SplitN, splitNAux_length, List.count]

/-- Calls of a run that is over after the manifest fetch at the latest. -/
theorem checkBody_parse_failure (cfg : Config) (w : World) (fs : FS)
    (h : ∀ resp, w.get (manifestURL cfg) = .ok resp →
      (SplitN (TrimSpace resp.body) ' ' 3).length ≠ 3) :
    (checkBody cfg w fs).ret = false ∧ (checkBody cfg w fs).fs = fs ∧
    (checkBody cfg w fs).install = none ∧
    ∀ k u, Call.get k u ∈ (checkBody cfg w fs).calls → k = .manifest := by
  unfold checkBody
  by_cases hp : cfg.PROJECT_NAME = "unconfigured"
  · simp [hp]
  simp only [hp, if_false]
  cases hg : w.get (manifestURL cfg) with
  | error e => simp
  | ok resp =>
    have hl := h resp hg
    dsimp only
    cases hr : resp.readErr with
    | some e => simp
    | none =>
      dsimp only
      rcases hS : SplitN (TrimSpace resp.body) ' ' 3 with _ | ⟨a, _ | ⟨b, _ | ⟨c, _ | ⟨d, t⟩⟩⟩⟩
      · simp
      · simp
      · simp
      · rw [hS] at hl; simp at hl
      · simp

theorem splitNAux_run (p : Char → Bool) (k : Nat) (a : List Char) (c : Char)
    (rest : List Char) (ha : ∀ x ∈ a, p x = false) (hc : p c = true) :
    splitNAux p (k + 1) (a ++ c :: rest) =
      (a, (splitNAux p k rest).1 :: (splitNAux p k rest).2) := by
  induction a with
  | nil => simp [splitNAux, hc]
  | cons x xs ih =>
    have hx : p x = false := ha x (List.mem_cons_self _ _)
    have := ih (fun y hy => ha y (List.mem_cons_of_mem _ hy))
    simp [splitNAux, hx, this]

theorem SplitN_three (ts tag upd : String) (hts : ' ' ∉ ts.data) (htag : ' ' ∉ tag.data) :
    SplitN (ts ++ " " ++ tag ++ " " ++ upd) ' ' 3 = [ts, tag, upd] := by
  have hsp : (" " : String).data = [' '] := rfl
  have h1 : ∀ x ∈ ts.data, (fun c => c == ' ') x = false := by
    intro x hx
    have : x ≠ ' ' := fun h => hts (h ▸ hx)
    simpa using this
  have h2 : ∀ x ∈ tag.data, (fun c => c == ' ') x = false := by
    intro x hx
    have : x ≠ ' ' := fun h => htag (h ▸ hx)
    simpa using this
  have hd : (ts ++ " " ++ tag ++ " " ++ upd).data =
      ts.data ++ ' ' :: (tag.data ++ ' ' :: upd.data) := by
    simp [String.data_append, hsp]
  unfold SplitN
  simp only [hd]
  rw [splitNAux_run _ 1 _ _ _ h1 (by simp), splitNAux_run _ 0 _ _ _ h2 (by simp)]
  simp [splitNAux]

theorem RunAutoUpdateCheck_get (cfg : Config) (w : World) (fs : FS) (k : Fetch) (u : String) :
    Call.get k u ∈ (RunAutoUpdateCheck cfg w fs).calls ↔
      Call.get k u ∈ (checkBody cfg w fs).calls := by
  simp [RunAutoUpdateCheck]

theorem checkBody_current (cfg : Config) (w : World) (fs : FS) (resp : Response)
    (d upd : String) (hget : w.get (manifestURL cfg) = .ok resp)
    (h : SplitN (TrimSpace resp.body) ' ' 3 = [d, cfg.GIT_TAG, upd]) :
    (checkBody cfg w fs).ret = false ∧ (checkBody cfg w fs).fs = fs ∧
    (checkBody cfg w fs).install = none ∧
    ∀ k u, Call.get k u ∈ (checkBody cfg w fs).calls → k = .manifest := by
  unfold checkBody
  by_cases hp : cfg.PROJECT_NAME = "unconfigured"
  · simp [hp]
  simp only [hp, if_false, hget]
  cases hr : resp.readErr with
  | some e => simp
  | none => simp [h]

/-! ## The manifest -/

/-- C5 (as stated) fails: a manifest body of four whitespace-separated tokens
is not rejected; the run goes on to fetch the architecture list and the
payload, installs it and returns true. -/
theorem RunAutoUpdateCheck_long_manifest_accepted :
    (tokens longManifest).length = 4 ∧
    (RunAutoUpdateCheck sampleCfg (serve longManifest "rel-2 extra" "linux_amd64") sampleFS).ret
      = true ∧
    Call.get .archList (archURL sampleCfg "rel-2 extra") ∈
      (RunAutoUpdateCheck sampleCfg (serve longManifest "rel-2 extra" "linux_amd64")
        sampleFS).calls ∧
    (RunAutoUpdateCheck sampleCfg (serve longManifest "rel-2 extra" "linux_amd64") sampleFS).fs
      sampleExe ≠ sampleFS sampleExe := by
  decide

/-- C5 (amended): when the trimmed manifest body holds fewer than two space
characters, so that cutting it at single spaces gives fewer than three pieces,
`RunAutoUpdateCheck` returns false, makes no fetch besides the manifest fetch
and does not touch the file system. -/
theorem RunAutoUpdateCheck_short_manifest (cfg : Config) (w : World) (fs : FS)
    (resp : Response) (hget : w.get (manifestURL cfg) = .ok resp)
    (hcount : (TrimSpace resp.body).data.count ' ' < 2) :
    (RunAutoUpdateCheck cfg w fs).ret = false ∧
    (RunAutoUpdateCheck cfg w fs).fs = fs ∧
    (RunAutoUpdateCheck cfg w fs).install = none ∧
    ∀ k u, Call.get k u ∈ (RunAutoUpdateCheck cfg w fs).calls → k = .manifest := by
  have h := checkBody_parse_failure cfg w fs (by
    intro resp2 h2
    rw [hget] at h2
    cases h2
    rw [SplitN_length]
    omega)
  refine ⟨h.1, h.2.1, h.2.2.1, fun k u hk => h.2.2.2 k u ?_⟩
  exact (RunAutoUpdateCheck_get cfg w fs k u).mp hk

theorem RunAutoUpdateCheck_short_manifest_witness :
    (RunAutoUpdateCheck sampleCfg (serve "20240101\tv2\trel-2" "rel-2" "linux_amd64")
      sampleFS).ret = false ∧
    (RunAutoUpdateCheck sampleCfg (serve "20240101\tv2\trel-2" "rel-2" "linux_amd64")
      sampleFS).fs = sampleFS :=
  have h := RunAutoUpdateCheck_short_manifest sampleCfg
    (serve "20240101\tv2\trel-2" "rel-2" "linux_amd64") sampleFS ⟨"20240101\tv2\trel-2", none⟩
    rfl (by decide)
  ⟨h.1, h.2.1⟩

/-- C6 (as stated) fails: a manifest of three whitespace-separated tokens whose
second token is the local revision tag, the first two tokens being two spaces
apart, does not stop the run; the architecture list is fetched. -/
theorem RunAutoUpdateCheck_wide_manifest_fetches :
    tokens wideManifest = ["20240101", sampleCfg.GIT_TAG, "rel-1"] ∧
    Call.get .archList (archURL sampleCfg "v1 rel-1") ∈
      (RunAutoUpdateCheck sampleCfg (serve wideManifest "v1 rel-1" "linux_amd64")
        sampleFS).calls ∧
    (RunAutoUpdateCheck sampleCfg (serve wideManifest "v1 rel-1" "linux_amd64") sampleFS).ret
      = true := by
  decide

/-- C6 (amended): when the trimmed manifest body is
`{buildTimestamp} {revisionTag} {archivePrefix}` with single spaces between the
tokens and the revision tag equals `GIT_TAG`, `RunAutoUpdateCheck` returns
false, makes no fetch besides the manifest fetch and does not touch the file
system; a second call right after the first behaves the same. -/
theorem RunAutoUpdateCheck_up_to_date (cfg : Config) (w : World) (fs : FS)
    (resp : Response) (ts upd : String) (hget : w.get (manifestURL cfg) = .ok resp)
    (hbody : TrimSpace resp.body = ts ++ " " ++ cfg.GIT_TAG ++ " " ++ upd)
    (hts : ' ' ∉ ts.data) (htag : ' ' ∉ cfg.GIT_TAG.data) :
    ((RunAutoUpdateCheck cfg w fs).ret = false ∧
      (RunAutoUpdateCheck cfg w fs).fs = fs ∧
      (RunAutoUpdateCheck cfg w fs).install = none ∧
      ∀ k u, Call.get k u ∈ (RunAutoUpdateCheck cfg w fs).calls → k = .manifest) ∧
    ((RunAutoUpdateCheck cfg w (RunAutoUpdateCheck cfg w fs).fs).ret = false ∧
      (RunAutoUpdateCheck cfg w (RunAutoUpdateCheck cfg w fs).fs).fs = fs ∧
      (RunAutoUpdateCheck cfg w (RunAutoUpdateCheck cfg w fs).fs).install = none ∧
      ∀ k u, Call.get k u ∈ (RunAutoUpdateCheck cfg w (RunAutoUpdateCheck cfg w fs).fs).calls →
        k = .manifest) := by
  have hS : SplitN (TrimSpace resp.body) ' ' 3 = [ts, cfg.GIT_TAG, upd] := by
    rw [hbody]; exact SplitN_three ts cfg.GIT_TAG upd hts htag
  have key : ∀ fs0 : FS, (RunAutoUpdateCheck cfg w fs0).ret = false ∧
      (RunAutoUpdateCheck cfg w fs0).fs = fs0 ∧
      (RunAutoUpdateCheck cfg w fs0).install = none ∧
      ∀ k u, Call.get k u ∈ (RunAutoUpdateCheck cfg w fs0).calls → k = .manifest := by
    intro fs0
    have h := checkBody_current cfg w fs0 resp ts upd hget hS
    exact ⟨h.1, h.2.1, h.2.2.1, fun k u hk =>
      h.2.2.2 k u ((RunAutoUpdateCheck_get cfg w fs0 k u).mp hk)⟩
  refine ⟨key fs, ?_⟩
  rw [(key fs).2.1]
  exact key fs

theorem RunAutoUpdateCheck_up_to_date_witness :
    (RunAutoUpdateCheck sampleCfg (serve "20240101 v1 rel-1\n" "rel-1" "linux_amd64")
      sampleFS).ret = false ∧
    (RunAutoUpdateCheck sampleCfg (serve "20240101 v1 rel-1\n" "rel-1" "linux_amd64")
      sampleFS).calls = [.lock, .get .manifest (manifestURL sampleCfg), .unlock] :=
  ⟨(RunAutoUpdateCheck_up_to_date sampleCfg (serve "20240101 v1 rel-1\n" "rel-1" "linux_amd64")
      sampleFS ⟨"20240101 v1 rel-1\n", none⟩ "20240101" "rel-1"
      rfl (by decide) (by decide) (by decide)).1.1,
    by decide⟩

/-! ## Pieces and tokens -/

theorem splitAux_sub (p q : Char → Bool) (hpq : ∀ c, p c = true → q c = true) (l : List Char) :
    ((∀ c ∈ (splitAux p l).1, q c = false) → (splitAux p l).1 = (splitAux q l).1) ∧
    (∀ t ∈ (splitAux p l).2, (∀ c ∈ t, q c = false) → t ∈ (splitAux q l).2) := by
  induction l with
  | nil => simp [splitAux]
  | cons c cs ih =>
    obtain ⟨ih1, ih2⟩ := ih
    cases hp : p c with
    | true =>
      have hq := hpq c hp
      have e1 : splitAux p (c :: cs) = ([], (splitAux p cs).1 :: (splitAux p cs).2) := by
        simp [splitAux, hp]
      have e2 : splitAux q (c :: cs) = ([], (splitAux q cs).1 :: (splitAux q cs).2) := by
        simp [splitAux, hq]
      rw [e1, e2]
      refine ⟨fun _ => rfl, ?_⟩
      intro t ht hfree
      rcases List.mem_cons.mp ht with h | h
      · subst h
        rw [ih1 hfree]
        exact List.mem_cons_self _ _
      · exact List.mem_cons_of_mem _ (ih2 t h hfree)
    | false =>
      have e1 : splitAux p (c :: cs) = (c :: (splitAux p cs).1, (splitAux p cs).2) := by
        simp [splitAux, hp]
      rw [e1]
      cases hq : q c with
      | true =>
        have e2 : splitAux q (c :: cs) = ([], (splitAux q cs).1 :: (splitAux q cs).2) := by
          simp [splitAux, hq]
        rw [e2]
        refine ⟨fun hfree => ?_, ?_⟩
        · have := hfree c (List.mem_cons_self _ _)
          rw [hq] at this
          cases this
        · intro t ht hfree
          exact List.mem_cons_of_mem _ (ih2 t ht hfree)
      | false =>
        have e2 : splitAux q (c :: cs) = (c :: (splitAux q cs).1, (splitAux q cs).2) := by
          simp [splitAux, hq]
        rw [e2]
        refine ⟨fun hfree => ?_, ih2⟩
        show c :: (splitAux p cs).1 = c :: (splitAux q cs).1
        rw [ih1 (fun x hx => hfree x (List.mem_cons_of_mem _ hx))]

theorem cut_sub (p q : Char → Bool) (hpq : ∀ c, p c = true → q c = true) (l t : List Char)
    (ht : t ∈ cut p l) (hfree : ∀ c ∈ t, q c = false) : t ∈ cut q l := by
  unfold cut at ht ⊢
  rcases List.mem_cons.mp ht with h | h
  · subst h
    rw [(splitAux_sub p q hpq l).1 hfree]
    exact List.mem_cons_self _ _
  · exact List.mem_cons_of_mem _ ((splitAux_sub p q hpq l).2 t h hfree)

theorem cut_dropWhile (q : Char → Bool) (l t : List Char)
    (ht : t ∈ cut q (l.dropWhile q)) : t ∈ cut q l := by
  induction l with
  | nil => simpa using ht
  | cons c cs ih =>
    by_cases hq : q c = true
    · rw [List.dropWhile_cons_of_pos hq] at ht
      have := ih ht
      unfold cut at this ⊢
      simp only [splitAux, hq, if_true]
      exact List.mem_cons_of_mem _ this
    · rw [List.dropWhile_cons_of_neg hq] at ht
      exact ht

theorem splitAux_concat (q : Char → Bool) (l : List Char) (x : Char) (hx : q x = true) :
    splitAux q (l ++ [x]) = ((splitAux q l).1, (splitAux q l).2 ++ [[]]) := by
  induction l with
  | nil => simp [splitAux, hx]
  | cons c cs ih =>
    by_cases hq : q c = true
    · simp [splitAux, hq, ih]
    · simp [splitAux, hq, ih]

theorem cut_rdropWhile (q : Char → Bool) (l t : List Char)
    (ht : t ∈ cut q (l.rdropWhile q)) : t ∈ cut q l := by
  induction l using List.reverseRecOn with
  | nil => simpa using ht
  | append_singleton xs x ih =>
    by_cases hq : q x = true
    · rw [List.rdropWhile_concat_pos _ _ _ hq] at ht
      have := ih ht
      unfold cut at this ⊢
      rw [splitAux_concat q xs x hq]
      rcases List.mem_cons.mp this with h | h
      · exact h ▸ List.mem_cons_self _ _
      · exact List.mem_cons_of_mem _ (List.mem_append_left _ h)
    · rw [List.rdropWhile_concat_neg _ _ _ hq] at ht
      exact ht

theorem cut_trimSpaceChars (l t : List Char) (ht : t ∈ cut isSpace (trimSpaceChars l)) :
    t ∈ cut isSpace l := by
  apply cut_dropWhile
  apply cut_rdropWhile
  exact ht

theorem archFound_iff (m : String) (l : List String) : archFound m l = true ↔ m ∈ l := by
  induction l with
  | nil => simp [archFound]
  | cons a as ih =>
    by_cases h : a = m
    · simp [archFound, h]
    · simp [archFound, h, ih, Ne.symm h]

/-- A piece of the trimmed text cut at single spaces that holds no white space
and is not empty is one of the whitespace-separated tokens of the text. -/
theorem mem_tokens_of_mem_Split (body m : String) (hm : m ∈ Split (TrimSpace body) ' ')
    (hfree : ∀ c ∈ m.data, isSpace c = false) (hne : m.data ≠ []) : m ∈ tokens body := by
  unfold Split TrimSpace at hm
  obtain ⟨t, ht, rfl⟩ := List.mem_map.mp hm
  unfold tokens
  refine List.mem_map.mpr ⟨t, List.mem_filter.mpr ⟨?_, ?_⟩, rfl⟩
  · apply cut_trimSpaceChars
    refine cut_sub (fun c => c == ' ') isSpace ?_ _ t ht hfree
    intro c hc
    have : c = ' ' := by simpa using hc
    subst this
    decide
  · cases t with
    | nil => exact absurd rfl hne
    | cons _ _ => rfl

/-! ## The architecture list -/

theorem myself_free (cfg : Config) (hos : ∀ c ∈ cfg.GOOS.data, isSpace c = false)
    (harch : ∀ c ∈ cfg.GOARCH.data, isSpace c = false) :
    (∀ c ∈ (myself cfg).data, isSpace c = false) ∧ (myself cfg).data ≠ [] := by
  have hd : (myself cfg).data = cfg.GOOS.data ++ '_' :: cfg.GOARCH.data := by
    have hu : ("_" : String).data = ['_'] := rfl
    simp [myself, String.data_append, hu]
  rw [hd]
  refine ⟨?_, by simp⟩
  intro c hc
  rcases List.mem_append.mp hc with h | h
  · exact hos c h
  · rcases List.mem_cons.mp h with h | h
    · subst h; decide
    · exact harch c h

theorem checkBody_unsupported (cfg : Config) (w : World) (fs : FS)
    (hos : ∀ c ∈ cfg.GOOS.data, isSpace c = false)
    (harch : ∀ c ∈ cfg.GOARCH.data, isSpace c = false)
    (hlist : ∀ m d t upd a, w.get (manifestURL cfg) = .ok m →
      SplitN (TrimSpace m.body) ' ' 3 = [d, t, upd] → w.get (archURL cfg upd) = .ok a →
      myself cfg ∉ tokens a.body) :
    (checkBody cfg w fs).ret = false ∧
    (∀ u, Call.get .payload u ∉ (checkBody cfg w fs).calls) ∧
    Call.install ∉ (checkBody cfg w fs).calls ∧
    (checkBody cfg w fs).install = none ∧
    (checkBody cfg w fs).fs = fs := by
  unfold checkBody
  by_cases hp : cfg.PROJECT_NAME = "unconfigured"
  · simp [hp]
  simp only [hp, if_false]
  cases hg : w.get (manifestURL cfg) with
  | error e => simp
  | ok resp =>
    dsimp only
    cases hr : resp.readErr with
    | some e => simp
    | none =>
      dsimp only
      rcases hS : SplitN (TrimSpace resp.body) ' ' 3 with _ | ⟨a, _ | ⟨b, _ | ⟨c, _ | ⟨d, t⟩⟩⟩⟩
      · simp
      · simp
      · simp
      · dsimp only
        by_cases htag : b = cfg.GIT_TAG
        · simp [htag]
        simp only [htag, if_false]
        cases hg2 : w.get (archURL cfg c) with
        | error e => simp
        | ok resp2 =>
          dsimp only
          cases hr2 : resp2.readErr with
          | some e => simp
          | none =>
            dsimp only
            cases hf : archFound (myself cfg) (Split (TrimSpace resp2.body) ' ') with
            | false => simp
            | true =>
              exfalso
              have hm := (archFound_iff _ _).mp hf
              obtain ⟨h1, h2⟩ := myself_free cfg hos harch
              exact hlist resp a b c resp2 hg hS hg2
                (mem_tokens_of_mem_Split resp2.body (myself cfg) hm h1 h2)
      · simp

/-- C7: when no whitespace-separated token of the architecture list fetched for
the release equals the local platform identifier, `RunAutoUpdateCheck` returns
false, never issues the payload fetch, never calls `installUpdate` and leaves
the file system as it was. The platform constants hold no white space. -/
theorem RunAutoUpdateCheck_unsupported_platform (cfg : Config) (w : World) (fs : FS)
    (hos : ∀ c ∈ cfg.GOOS.data, isSpace c = false)
    (harch : ∀ c ∈ cfg.GOARCH.data, isSpace c = false)
    (hlist : ∀ m d t upd a, w.get (manifestURL cfg) = .ok m →
      SplitN (TrimSpace m.body) ' ' 3 = [d, t, upd] → w.get (archURL cfg upd) = .ok a →
      myself cfg ∉ tokens a.body) :
    (RunAutoUpdateCheck cfg w fs).ret = false ∧
    (∀ u, Call.get .payload u ∉ (RunAutoUpdateCheck cfg w fs).calls) ∧
    Call.install ∉ (RunAutoUpdateCheck cfg w fs).calls ∧
    (RunAutoUpdateCheck cfg w fs).install = none ∧
    (RunAutoUpdateCheck cfg w fs).fs = fs := by
  obtain ⟨h1, h2, h3, h4, h5⟩ := checkBody_unsupported cfg w fs hos harch hlist
  refine ⟨h1, ?_, ?_, h4, h5⟩
  · intro u hu
    exact h2 u ((RunAutoUpdateCheck_get cfg w fs .payload u).mp hu)
  · intro hi
    apply h3
    simpa [RunAutoUpdateCheck] using hi

theorem RunAutoUpdateCheck_unsupported_platform_witness :
    (RunAutoUpdateCheck sampleCfg (serve "20240101 v2 rel-2" "rel-2" "windows_amd64 darwin_arm64")
      sampleFS).ret = false ∧
    (RunAutoUpdateCheck sampleCfg (serve "20240101 v2 rel-2" "rel-2" "windows_amd64 darwin_arm64")
      sampleFS).calls =
      [.lock, .get .manifest (manifestURL sampleCfg), .get .archList (archURL sampleCfg "rel-2"),
        .unlock] :=
  ⟨(RunAutoUpdateCheck_unsupported_platform sampleCfg
      (serve "20240101 v2 rel-2" "rel-2" "windows_amd64 darwin_arm64") sampleFS
      (by decide) (by decide)
      (by
        intro m d t upd a h1 h2 h3
        have e1 : (Except.ok ⟨"20240101 v2 rel-2", none⟩ : Except Err Response) = .ok m := h1
        cases e1
        have e0 : SplitN (TrimSpace "20240101 v2 rel-2") ' ' 3 = ["20240101", "v2", "rel-2"] := by
          decide
        rw [e0] at h2
        cases h2
        have e3 : (Except.ok ⟨"windows_amd64 darwin_arm64", none⟩ : Except Err Response)
            = .ok a := h3
        cases e3
        decide)).1,
    by decide⟩

/-- C10 (as stated) fails: an architecture list with one platform per line has
the local platform identifier among its whitespace-separated tokens, yet the
run aborts after fetching the list, without a payload fetch. -/
theorem RunAutoUpdateCheck_line_separated_archs_rejected :
    myself sampleCfg ∈ tokens lineArchs ∧
    (RunAutoUpdateCheck sampleCfg (serve "20240101 v2 rel-2" "rel-2" lineArchs) sampleFS).ret
      = false ∧
    (RunAutoUpdateCheck sampleCfg (serve "20240101 v2 rel-2" "rel-2" lineArchs) sampleFS).calls =
      [.lock, .get .manifest (manifestURL sampleCfg), .get .archList (archURL sampleCfg "rel-2"),
        .unlock] := by
  decide

/-- C10 (amended): when the local platform identifier is one of the pieces of
the trimmed architecture list cut at every single space character, a run that
has fetched and read that list issues the payload fetch for
`{host}{projectName}/{archivePrefix}/{projectName}_{os}_{architecture}.bz2`. -/
theorem RunAutoUpdateCheck_supported_platform (cfg : Config) (w : World) (fs : FS)
    (m a : Response) (d t upd : String)
    (hcfg : cfg.PROJECT_NAME ≠ "unconfigured")
    (hget : w.get (manifestURL cfg) = .ok m) (hread : m.readErr = none)
    (hsplit : SplitN (TrimSpace m.body) ' ' 3 = [d, t, upd]) (htag : t ≠ cfg.GIT_TAG)
    (hget2 : w.get (archURL cfg upd) = .ok a) (hread2 : a.readErr = none)
    (hmem : myself cfg ∈ Split (TrimSpace a.body) ' ') :
    Call.get .payload
        (cfg.HOST ++ cfg.PROJECT_NAME ++ "/" ++ upd ++ "/" ++ cfg.PROJECT_NAME ++ "_" ++
          (cfg.GOOS ++ "_" ++ cfg.GOARCH) ++ ".bz2") ∈
      (RunAutoUpdateCheck cfg w fs).calls := by
  rw [RunAutoUpdateCheck_get]
  have hf := (archFound_iff _ _).mpr hmem
  unfold checkBody
  simp only [hcfg, if_false, hget, hread, hsplit, htag, hget2, hread2, hf]
  cases hg3 : w.get (payloadURL cfg upd) with
  | error e => simp [payloadURL, myself]
  | ok pl =>
    dsimp only
    cases he : (installUpdate w.os (w.bzip2 pl) fs).err <;> simp [payloadURL, myself]

theorem RunAutoUpdateCheck_supported_platform_witness :
    Call.get .payload "https://dist.example/app/rel-2/app_linux_amd64.bz2" ∈
      (RunAutoUpdateCheck sampleCfg (serve "20240101 v2 rel-2" "rel-2" "darwin_arm64 linux_amd64")
        sampleFS).calls :=
  RunAutoUpdateCheck_supported_platform sampleCfg
    (serve "20240101 v2 rel-2" "rel-2" "darwin_arm64 linux_amd64") sampleFS
    ⟨"20240101 v2 rel-2", none⟩ ⟨"darwin_arm64 linux_amd64", none⟩ "20240101" "v2" "rel-2"
    (by decide) rfl rfl (by decide) (by decide) rfl rfl (by decide)

/-! ## The result of the update check -/

/-- C8: `RunAutoUpdateCheck` returns true exactly when `installUpdate` was
reached and returned nil. With the placeholder project name it returns false
without any fetch. `installUpdate` is reached only when the project is
configured, the three fetches and the two body reads succeed, the manifest has
three pieces, its revision tag is not the local one and the platform is listed;
every other branch returns false. -/
theorem RunAutoUpdateCheck_true_iff (cfg : Config) (w : World) (fs : FS) :
    ((RunAutoUpdateCheck cfg w fs).ret = true ↔
      ∃ run, (RunAutoUpdateCheck cfg w fs).install = some run ∧ run.err = none) ∧
    (cfg.PROJECT_NAME = "unconfigured" →
      (RunAutoUpdateCheck cfg w fs).ret = false ∧
      (RunAutoUpdateCheck cfg w fs).calls = [.lock, .unlock]) ∧
    (∀ run, (RunAutoUpdateCheck cfg w fs).install = some run →
      cfg.PROJECT_NAME ≠ "unconfigured" ∧
      ∃ m d t upd a pl,
        w.get (manifestURL cfg) = .ok m ∧ m.readErr = none ∧
        SplitN (TrimSpace m.body) ' ' 3 = [d, t, upd] ∧ t ≠ cfg.GIT_TAG ∧
        w.get (archURL cfg upd) = .ok a ∧ a.readErr = none ∧
        myself cfg ∈ Split (TrimSpace a.body) ' ' ∧
        w.get (payloadURL cfg upd) = .ok pl ∧
        run = installUpdate w.os (w.bzip2 pl) fs) := by
  simp only [RunAutoUpdateCheck]
  unfold checkBody
  by_cases hp : cfg.PROJECT_NAME = "unconfigured"
  · simp [hp]
  simp only [hp, if_false]
  cases hg : w.get (manifestURL cfg) with
  | error e => simp
  | ok resp =>
    dsimp only
    cases hr : resp.readErr with
    | some e => simp
    | none =>
      dsimp only
      rcases hS : SplitN (TrimSpace resp.body) ' ' 3 with _ | ⟨a, _ | ⟨b, _ | ⟨c, _ | ⟨d, t⟩⟩⟩⟩
      · simp
      · simp
      · simp
      · dsimp only
        by_cases htag : b = cfg.GIT_TAG
        · simp [htag]
        simp only [htag, if_false]
        cases hg2 : w.get (archURL cfg c) with
        | error e => simp
        | ok resp2 =>
          dsimp only
          cases hr2 : resp2.readErr with
          | some e => simp
          | none =>
            dsimp only
            cases hf : archFound (myself cfg) (Split (TrimSpace resp2.body) ' ') with
            | false => simp
            | true =>
              have hm := (archFound_iff _ _).mp hf
              simp only [Bool.true_eq_false, if_false]
              cases hg3 : w.get (payloadURL cfg c) with
              | error e => simp
              | ok pl =>
                dsimp only
                cases he : (installUpdate w.os (w.bzip2 pl) fs).err with
                | some e =>
                  simp only [he, false_iff, not_exists, not_and, Option.some.injEq,
                    Bool.false_eq_true]
                  refine ⟨?_, by simp, ?_⟩
                  · intro run hrun
                    subst hrun
                    simp [he]
                  · intro run hrun
                    exact ⟨hp, resp, a, b, c, resp2, pl, rfl, hr, hS, htag, hg2, hr2, hm, hg3, hrun.symm⟩
                | none =>
                  simp only [he, true_iff, Option.some.injEq]
                  refine ⟨⟨_, rfl, he⟩, by simp, ?_⟩
                  intro run hrun
                  exact ⟨hp, resp, a, b, c, resp2, pl, rfl, hr, hS, htag, hg2, hr2, hm, hg3, hrun.symm⟩
      · simp

theorem RunAutoUpdateCheck_true_iff_witness :
    (RunAutoUpdateCheck sampleCfg (serve "20240101 v2 rel-2" "rel-2" "linux_amd64")
      sampleFS).ret = true ∧
    ((RunAutoUpdateCheck sampleCfg (serve "20240101 v2 rel-2" "rel-2" "linux_amd64")
      sampleFS).fs sampleExe).map File.data = some sampleReader.data :=
  ⟨(RunAutoUpdateCheck_true_iff sampleCfg (serve "20240101 v2 rel-2" "rel-2" "linux_amd64")
      sampleFS).1.mpr ⟨installUpdate sampleOS sampleReader sampleFS, rfl, by decide⟩,
    by decide⟩

/-! ## The lock -/

/-- Within one run the lock is taken before anything else and released after
everything else: the calls are `Lock`, then the calls of the body, none of
which touches the lock, then the deferred `Unlock`. -/
theorem RunAutoUpdateCheck_lock_bracket (cfg : Config) (w : World) (fs : FS) :
    (RunAutoUpdateCheck cfg w fs).calls = .lock :: (checkBody cfg w fs).calls ++ [.unlock] ∧
    Call.lock ∉ (checkBody cfg w fs).calls ∧ Call.unlock ∉ (checkBody cfg w fs).calls := by
  refine ⟨rfl, ?_⟩
  unfold checkBody
  by_cases hp : cfg.PROJECT_NAME = "unconfigured"
  · simp [hp]
  simp only [hp, if_false]
  cases hg : w.get (manifestURL cfg) with
  | error e => simp
  | ok resp =>
    dsimp only
    cases hr : resp.readErr with
    | some e => simp
    | none =>
      dsimp only
      rcases hS : SplitN (TrimSpace resp.body) ' ' 3 with _ | ⟨a, _ | ⟨b, _ | ⟨c, _ | ⟨d, t⟩⟩⟩⟩
      · simp
      · simp
      · simp
      · dsimp only
        by_cases htag : b = cfg.GIT_TAG
        · simp [htag]
        simp only [htag, if_false]
        cases hg2 : w.get (archURL cfg c) with
        | error e => simp
        | ok resp2 =>
          dsimp only
          cases hr2 : resp2.readErr with
          | some e => simp
          | none =>
            dsimp only
            cases hf : archFound (myself cfg) (Split (TrimSpace resp2.body) ' ') with
            | false => simp
            | true =>
              simp only [Bool.true_eq_false, if_false]
              cases hg3 : w.get (payloadURL cfg c) with
              | error e => simp
              | ok pl =>
                dsimp only
                cases he : (installUpdate w.os (w.bzip2 pl) fs).err <;> simp
      · simp

/-! ## Schedules -/

theorem mutexRun_append (b : Bool) (a c : List (Nat × Ev)) :
    mutexRun b (a ++ c) = (mutexRun b a).bind (fun b1 => mutexRun b1 c) := by
  induction a generalizing b with
  | nil => simp [mutexRun]
  | cons x t ih =>
    simp only [List.cons_append, mutexRun]
    cases mutexStep b x.2 with
    | none => simp
    | some b1 => simpa using ih b1

theorem proj_append (g : Nat) (a c : List (Nat × Ev)) :
    proj g (a ++ c) = proj g a ++ proj g c := by
  simp [proj]

theorem proj_map_same (g : Nat) (l : List Ev) : proj g (l.map (fun e => (g, e))) = l := by
  induction l with
  | nil => simp [proj]
  | cons e t ih =>
    simp only [proj, List.map_cons] at ih ⊢
    simp [ih]

theorem proj_map_other (g h : Nat) (l : List Ev) (hne : h ≠ g) :
    proj g (l.map (fun e => (h, e))) = [] := by
  induction l with
  | nil => simp [proj]
  | cons e t ih =>
    simp only [proj, List.map_cons] at ih ⊢
    simp [hne, ih]

theorem proj_serial_not_mem (evs : Nat → List Ev) (g : Nat) (order : List Nat)
    (h : g ∉ order) : proj g (serial evs order) = [] := by
  induction order with
  | nil => simp [serial, proj]
  | cons a t ih =>
    have ha : a ≠ g := fun e => h (e ▸ List.mem_cons_self _ _)
    have ht : g ∉ t := fun e => h (List.mem_cons_of_mem _ e)
    simp [serial, proj_append, block, proj_map_other g a _ ha, ih ht]

theorem proj_serial_mem (evs : Nat → List Ev) (g : Nat) (order : List Nat)
    (hd : order.Nodup) (h : g ∈ order) : proj g (serial evs order) = evs g := by
  induction order with
  | nil => simp at h
  | cons a t ih =>
    obtain ⟨hat, hdt⟩ := List.nodup_cons.mp hd
    by_cases ha : a = g
    · subst ha
      simp [serial, proj_append, block, proj_map_same, proj_serial_not_mem evs a t hat]
    · have ht : g ∈ t := by
        rcases List.mem_cons.mp h with e | e
        · exact absurd e.symm ha
        · exact e
      simp [serial, proj_append, block, proj_map_other g a _ ha, ih hdt ht]

theorem serial_append (evs : Nat → List Ev) (a c : List Nat) :
    serial evs (a ++ c) = serial evs a ++ serial evs c := by
  induction a with
  | nil => simp [serial]
  | cons x t ih => simp [serial, ih]

theorem Bracketed.first {l : List Ev} (h : Bracketed l) {e : Ev} (he : [e] <+: l) :
    e = .call .lock := by
  obtain ⟨mid, rfl, _, _⟩ := h
  exact ((List.cons_prefix_cons).mp he).1

theorem Bracketed.not_longer {l : List Ev} (e : Ev) : ¬ (l ++ [e] <+: l) := by
  intro h
  have := h.length_le
  simp at this

theorem Bracketed.closed {l : List Ev} (h : Bracketed l) {p : List Ev} (hp : p ≠ [])
    (hpre : p ++ [.call .unlock] <+: l) : p ++ [.call .unlock] = l := by
  obtain ⟨mid, rfl, _, hu⟩ := h
  cases p with
  | nil => exact absurd rfl hp
  | cons a q =>
    obtain ⟨r, hr⟩ := hpre
    rcases List.eq_nil_or_concat r with h0 | ⟨r1, x, rfl⟩
    · subst h0
      simpa using hr
    · exfalso
      simp only [List.cons_append, List.cons.injEq, List.concat_eq_append,
        List.append_assoc] at hr
      have h2 : (q ++ ([.call .unlock] ++ r1)) ++ [x] = mid ++ [.call .unlock] := by
        simpa [List.append_assoc] using hr.2
      have h3 := (List.append_inj' h2 rfl).1
      apply hu
      rw [← h3]
      simp

theorem Bracketed.open {l : List Ev} (h : Bracketed l) {p : List Ev} {e : Ev}
    (he : e ≠ .call .unlock) : p ++ [e] ≠ l := by
  obtain ⟨mid, rfl, _, _⟩ := h
  intro heq
  have h2 : p ++ [e] = (.call .lock :: mid) ++ [.call .unlock] := by simpa using heq
  have h3 := (List.append_inj' h2 rfl).2
  exact he (by simpa using h3)

theorem Bracketed.two_le {l : List Ev} (h : Bracketed l) : 2 ≤ l.length := by
  obtain ⟨mid, rfl, _, _⟩ := h
  simp

theorem mutexStep_other {b b1 : Bool} {e : Ev} (h : mutexStep b e = some b1)
    (h1 : e ≠ .call .lock) (h2 : e ≠ .call .unlock) : b1 = b := by
  cases e with
  | call c =>
    cases c <;> simp_all [mutexStep]
  | fsop st ok =>
    simp [mutexStep] at h
    exact h.symm

/-- Every schedule that the mutex allows and in which each goroutine has made
the first steps of a bracketed step list consists of complete runs one after
another, followed, exactly when the mutex is taken, by the first steps of one
more run. -/
theorem shape_of_schedule (evs : Nat → List Ev) (hb : ∀ g, Bracketed (evs g)) :
    ∀ (s : List (Nat × Ev)) (b : Bool), mutexRun false s = some b →
      (∀ g, proj g s <+: evs g) → Shape evs s b := by
  intro s
  induction s using List.reverseRecOn with
  | nil =>
    intro b hrun _
    simp only [mutexRun, Option.some.injEq] at hrun
    subst hrun
    exact ⟨[], List.nodup_nil, Or.inl ⟨rfl, rfl⟩⟩
  | append_singleton s x ih =>
    intro b1 hrun hpre
    obtain ⟨g, e⟩ := x
    rw [mutexRun_append] at hrun
    cases hs : mutexRun false s with
    | none => simp [hs] at hrun
    | some b =>
      simp only [hs, Option.some_bind, mutexRun] at hrun
      have hstep : mutexStep b e = some b1 := by
        cases hm : mutexStep b e with
        | none => simp [hm] at hrun
        | some b2 => simpa [hm] using hrun
      have hpre0 : ∀ g1, proj g1 s <+: evs g1 := by
        intro g1
        have := hpre g1
        rw [proj_append] at this
        exact (List.prefix_append _ _).trans this
      have hg : proj g s ++ [e] <+: evs g := by
        have := hpre g
        rw [proj_append] at this
        simpa [proj] using this
      obtain ⟨order, hnd, hshape⟩ := ih b hs hpre0
      rcases hshape with ⟨hbf, hser⟩ | ⟨hbt, g0, p, hg0, hpne, hppre, hpneq, hser⟩
      · -- the mutex is free: the step is the `Lock` of a goroutine not yet run
        subst hbf
        have hgo : g ∉ order := by
          intro hmem
          rw [hser, proj_serial_mem evs g order hnd hmem] at hg
          exact Bracketed.not_longer e hg
        rw [hser, proj_serial_not_mem evs g order hgo] at hg
        have he : e = .call .lock := (hb g).first (by simpa using hg)
        subst he
        have hb1 : b1 = true := by
          simp [mutexStep] at hstep
          exact hstep
        refine ⟨order, hnd, Or.inr ⟨hb1, g, [.call .lock], hgo, by simp, by simpa using hg, ?_, ?_⟩⟩
        · intro heq
          have := (hb g).two_le
          rw [← heq] at this
          simp at this
        · rw [hser]
          simp
      · -- the mutex is taken by `g0`
        subst hbt
        have hp0 : proj g0 s = p := by
          rw [hser, proj_append, proj_serial_not_mem evs g0 order hg0, proj_map_same]
          simp
        by_cases hgg : g = g0
        · subst hgg
          rw [hp0] at hg
          have hnl : e ≠ .call .lock := by
            intro h
            subst h
            simp [mutexStep] at hstep
          by_cases hu : e = .call .unlock
          · subst hu
            have hb1 : b1 = false := by
              simp [mutexStep] at hstep
              exact hstep
            have hfull := (hb g).closed hpne hg
            refine ⟨order ++ [g], ?_, Or.inl ⟨hb1, ?_⟩⟩
            · rw [List.nodup_append]
              refine ⟨hnd, List.nodup_singleton g, ?_⟩
              intro a ha hb2
              rw [List.mem_singleton] at hb2
              subst hb2
              exact hg0 ha
            · rw [serial_append, hser]
              simp only [serial, block, List.append_nil, ← hfull, List.map_append,
                List.map_cons, List.map_nil, List.append_assoc]
          · have hb1 : b1 = true := mutexStep_other hstep hnl hu
            refine ⟨order, hnd, Or.inr ⟨hb1, g, p ++ [e], hg0, by simp, hg,
              (hb g).open hu, ?_⟩⟩
            rw [hser]
            simp
        · exfalso
          have hpg : proj g s = proj g (serial evs order) := by
            rw [hser, proj_append, proj_map_other g g0 p (Ne.symm hgg)]
            simp
          rw [hpg] at hg
          by_cases hmem : g ∈ order
          · rw [proj_serial_mem evs g order hnd hmem] at hg
            exact Bracketed.not_longer e hg
          · rw [proj_serial_not_mem evs g order hmem] at hg
            have he : e = .call .lock := (hb g).first (by simpa using hg)
            subst he
            simp [mutexStep] at hstep

theorem mutexStep_keep (b : Bool) (e : Ev) (h1 : e ≠ .call .lock) (h2 : e ≠ .call .unlock) :
    mutexStep b e = some b := by
  cases e with
  | call c => cases c <;> simp_all [mutexStep]
  | fsop st ok => simp [mutexStep]

theorem mutexRun_mid (b : Bool) (g : Nat) (mid : List Ev)
    (h1 : Ev.call .lock ∉ mid) (h2 : Ev.call .unlock ∉ mid) :
    mutexRun b (mid.map (fun e => (g, e))) = some b := by
  induction mid with
  | nil => simp [mutexRun]
  | cons e t ih =>
    have he1 : e ≠ .call .lock := fun h => h1 (h ▸ List.mem_cons_self _ _)
    have he2 : e ≠ .call .unlock := fun h => h2 (h ▸ List.mem_cons_self _ _)
    simp only [List.map_cons, mutexRun, mutexStep_keep b e he1 he2]
    exact ih (fun h => h1 (List.mem_cons_of_mem _ h)) (fun h => h2 (List.mem_cons_of_mem _ h))

theorem mutexRun_block (evs : Nat → List Ev) (hb : ∀ g, Bracketed (evs g)) (g : Nat) :
    mutexRun false (block evs g) = some false := by
  obtain ⟨mid, hl, h1, h2⟩ := hb g
  unfold block
  rw [hl]
  simp only [List.map_cons, List.map_append, List.map_nil, mutexRun, mutexStep,
    Bool.false_eq_true, if_false]
  rw [mutexRun_append, mutexRun_mid true g mid h1 h2]
  simp [mutexRun, mutexStep]

/-- Running the goroutines one after another is a schedule the mutex allows. -/
theorem serial_admissible (evs : Nat → List Ev) (hb : ∀ g, Bracketed (evs g))
    (order : List Nat) : mutexRun false (serial evs order) = some false := by
  induction order with
  | nil => simp [serial, mutexRun]
  | cons g t ih =>
    simp only [serial]
    rw [mutexRun_append, mutexRun_block evs hb g]
    simpa using ih

/-- In a schedule the mutex allows, at most one goroutine is between its first
and its last step. -/
theorem one_in_flight (evs : Nat → List Ev) (hb : ∀ g, Bracketed (evs g))
    (s : List (Nat × Ev)) (hadm : admissible s = true) (hpre : ∀ g, proj g s <+: evs g)
    (g1 g2 : Nat) (h1 : inFlight evs g1 s) (h2 : inFlight evs g2 s) : g1 = g2 := by
  unfold admissible at hadm
  obtain ⟨b, hrun⟩ := Option.isSome_iff_exists.mp hadm
  obtain ⟨order, hnd, hshape⟩ := shape_of_schedule evs hb s b hrun hpre
  rcases hshape with ⟨_, hser⟩ | ⟨_, g0, p0, hg0, hp0, _, _, hser⟩
  · exfalso
    by_cases hmem : g1 ∈ order
    · exact h1.2 (by rw [hser, proj_serial_mem evs g1 order hnd hmem])
    · exact h1.1 (by rw [hser, proj_serial_not_mem evs g1 order hmem])
  · have e1 : g1 = g0 := by
      by_contra hne
      have hpg : proj g1 s = proj g1 (serial evs order) := by
        rw [hser, proj_append, proj_map_other g1 g0 p0 (Ne.symm hne)]
        simp
      by_cases hmem : g1 ∈ order
      · exact h1.2 (by rw [hpg, proj_serial_mem evs g1 order hnd hmem])
      · exact h1.1 (by rw [hpg, proj_serial_not_mem evs g1 order hmem])
    have e2 : g2 = g0 := by
      by_contra hne
      have hpg : proj g2 s = proj g2 (serial evs order) := by
        rw [hser, proj_append, proj_map_other g2 g0 p0 (Ne.symm hne)]
        simp
      by_cases hmem : g2 ∈ order
      · exact h2.2 (by rw [hpg, proj_serial_mem evs g2 order hnd hmem])
      · exact h2.1 (by rw [hpg, proj_serial_not_mem evs g2 order hmem])
    rw [e1, e2]

theorem mem_serial (evs : Nat → List Ev) (order : List Nat) (g : Nat) (e : Ev)
    (hg : g ∈ order) (he : e ∈ evs g) : (g, e) ∈ serial evs order := by
  induction order with
  | nil => simp at hg
  | cons a t ih =>
    simp only [serial, List.mem_append]
    rcases List.mem_cons.mp hg with h | h
    · subst h
      exact Or.inl (List.mem_map.mpr ⟨e, he, rfl⟩)
    · exact Or.inr (ih h)

theorem proj_eq_nil (g : Nat) (s : List (Nat × Ev)) (h : ∀ x ∈ s, x.1 ≠ g) : proj g s = [] := by
  induction s with
  | nil => simp [proj]
  | cons x t ih =>
    have hx := h x (List.mem_cons_self _ _)
    have ht := ih (fun y hy => h y (List.mem_cons_of_mem _ hy))
    simp only [proj] at ht ⊢
    simp [hx, ht]

/-- A schedule that the mutex allows and in which each of `n` goroutines makes
all the steps of its bracketed step list is the goroutines' runs one after
another, in some order. -/
theorem complete_is_serial (evs : Nat → List Ev) (hb : ∀ g, Bracketed (evs g))
    (n : Nat) (s : List (Nat × Ev)) (hadm : admissible s = true)
    (hids : ∀ x ∈ s, x.1 < n) (hprog : ∀ g, g < n → proj g s = evs g) :
    ∃ order : List Nat, order.Perm (List.range n) ∧ s = serial evs order := by
  have hpre : ∀ g, proj g s <+: evs g := by
    intro g
    by_cases hg : g < n
    · rw [hprog g hg]
    · rw [proj_eq_nil g s (fun x hx h => hg (h ▸ hids x hx))]
      exact List.nil_prefix
  unfold admissible at hadm
  obtain ⟨b, hrun⟩ := Option.isSome_iff_exists.mp hadm
  obtain ⟨order, hnd, hshape⟩ := shape_of_schedule evs hb s b hrun hpre
  rcases hshape with ⟨_, hser⟩ | ⟨_, g0, p, hg0, hpne, _, hpneq, hser⟩
  · refine ⟨order, ?_, hser⟩
    refine (List.perm_ext_iff_of_nodup hnd (List.nodup_range n)).mpr ?_
    intro a
    rw [List.mem_range]
    constructor
    · intro ha
      obtain ⟨mid, hl, _, _⟩ := hb a
      have hmem : (a, Ev.call .lock) ∈ s := by
        rw [hser]
        exact mem_serial evs order a _ ha (by rw [hl]; exact List.mem_cons_self _ _)
      exact hids _ hmem
    · intro ha
      by_contra hno
      have h1 := hprog a ha
      rw [hser, proj_serial_not_mem evs a order hno] at h1
      have := (hb a).two_le
      rw [← h1] at this
      simp at this
  · exfalso
    have hp0 : proj g0 s = p := by
      rw [hser, proj_append, proj_serial_not_mem evs g0 order hg0, proj_map_same]
      simp
    have hlt : g0 < n := by
      cases p with
      | nil => exact absurd rfl hpne
      | cons e t =>
        apply hids (g0, e)
        rw [hser]
        simp
    rw [hprog g0 hlt] at hp0
    exact hpneq hp0.symm

theorem expand_append (inner : List Ev) (a c : List Call) :
    expand inner (a ++ c) = expand inner a ++ expand inner c := by
  induction a with
  | nil => simp [expand]
  | cons x t ih =>
    by_cases hx : x = .install
    · simp [expand, hx, ih]
    · simp [expand, hx, ih]

theorem call_mem_expand (inner : List Ev) (cs : List Call) (c : Call)
    (hin : Ev.call c ∉ inner) (h : Ev.call c ∈ expand inner cs) : c ∈ cs := by
  induction cs with
  | nil => simp [expand] at h
  | cons x t ih =>
    by_cases hx : x = .install
    · simp only [expand, hx, if_true, List.mem_cons, List.mem_append, Ev.call.injEq] at h
      rcases h with h | h | h
      · exact h ▸ hx ▸ List.mem_cons_self _ _
      · exact absurd h hin
      · exact List.mem_cons_of_mem _ (ih h)
    · simp only [expand, hx, if_false, List.mem_cons, Ev.call.injEq] at h
      rcases h with h | h
      · exact h ▸ List.mem_cons_self _ _
      · exact List.mem_cons_of_mem _ (ih h)

theorem call_not_mem_fsEvents (run : CheckRun) (c : Call) : Ev.call c ∉ run.fsEvents := by
  unfold CheckRun.fsEvents
  cases run.install <;> simp

/-- The steps of a call of `RunAutoUpdateCheck` start with `Lock`, end with
`Unlock` and do not touch the mutex in between. -/
theorem RunAutoUpdateCheck_bracketed (cfg : Config) (w : World) (fs : FS) :
    Bracketed (RunAutoUpdateCheck cfg w fs).events := by
  obtain ⟨hcalls, hl, hu⟩ := RunAutoUpdateCheck_lock_bracket cfg w fs
  refine ⟨expand (RunAutoUpdateCheck cfg w fs).fsEvents (checkBody cfg w fs).calls, ?_, ?_, ?_⟩
  · unfold CheckRun.events
    rw [hcalls]
    simp [expand, expand_append]
  · intro h
    exact hl (call_mem_expand _ _ _ (call_not_mem_fsEvents _ _) h)
  · intro h
    exact hu (call_mem_expand _ _ _ (call_not_mem_fsEvents _ _) h)

/-- C9: every run of `RunAutoUpdateCheck` takes `autoUpdateLock` as its first
step, before the configuration check and any fetch, and releases it as its last
step on every return path. Hence, for goroutines calling `RunAutoUpdateCheck`
concurrently: in every schedule the mutex allows at most one run is in flight;
a schedule in which `n` goroutines each complete their run is the `n` runs one
after another in some order, with no step of one run (fetch or file-system
call) between the steps of another; and running them one after another is
allowed by the mutex. -/
theorem RunAutoUpdateCheck_serialised (cfg : Config) (ws : Nat → World) (fss : Nat → FS) :
    (∀ g, Bracketed (runEvents cfg ws fss g)) ∧
    (∀ s, admissible s = true → (∀ g, proj g s <+: runEvents cfg ws fss g) →
      ∀ g1 g2, inFlight (runEvents cfg ws fss) g1 s → inFlight (runEvents cfg ws fss) g2 s →
        g1 = g2) ∧
    (∀ n s, admissible s = true → (∀ x ∈ s, x.1 < n) →
      (∀ g, g < n → proj g s = runEvents cfg ws fss g) →
      ∃ order : List Nat, order.Perm (List.range n) ∧ s = serial (runEvents cfg ws fss) order) ∧
    (∀ order, admissible (serial (runEvents cfg ws fss) order) = true) := by
  have hb : ∀ g, Bracketed (runEvents cfg ws fss g) :=
    fun g => RunAutoUpdateCheck_bracketed cfg (ws g) (fss g)
  refine ⟨hb, ?_, ?_, ?_⟩
  · intro s hadm hpre g1 g2 h1 h2
    exact one_in_flight _ hb s hadm hpre g1 g2 h1 h2
  · intro n s hadm hids hprog
    exact complete_is_serial _ hb n s hadm hids hprog
  · intro order
    unfold admissible
    rw [serial_admissible _ hb order]
    rfl

theorem RunAutoUpdateCheck_serialised_witness :
    admissible sampleSchedule = true ∧
    admissible sampleInterleaved = false ∧
    (∀ g, g < 2 → proj g sampleInterleaved = runEvents sampleCfg sampleWorlds (fun _ => sampleFS) g) ∧
    ∃ order : List Nat, order.Perm (List.range 2) ∧
      sampleSchedule = serial (runEvents sampleCfg sampleWorlds (fun _ => sampleFS)) order :=
  ⟨by decide, by decide, by decide,
    (RunAutoUpdateCheck_serialised sampleCfg sampleWorlds (fun _ => sampleFS)).2.2.1 2
      sampleSchedule (by decide) (by decide) (by decide)⟩

end Goupd
